import Mathlib

/-!
# dd-downloader: `pkg/processor/ddProcessor.go`

A shallow embedding of the processor package: the interval partitioner
(`getInterval`), the record projector (`getLogs`), and the entry points
`Validate`, `RunSync` and the sequential parts of `RunParallel`.

Go's `int64` is embedded as `Int` with explicit two's-complement wrapping.
-/

namespace Processor

/-! ## Machine integers -/

/-- Two's-complement wrapping of an integer into the `int64` range. -/
def wrap64 (x : Int) : Int :=
  (x + 9223372036854775808) % 18446744073709551616 - 9223372036854775808

/-- The values an `int64` can hold. -/
def isInt64 (x : Int) : Prop :=
  -9223372036854775808 ≤ x ∧ x < 9223372036854775808

instance (x : Int) : Decidable (isInt64 x) := by
  unfold isInt64; infer_instance

/-- Go's `a + b` on `int64`. -/
def add64 (a b : Int) : Int := wrap64 (a + b)

/-- Go's `a - b` on `int64`. -/
def sub64 (a b : Int) : Int := wrap64 (a - b)

/-- Go's `a / b` on `int64`: the quotient truncated toward zero. -/
def div64 (a b : Int) : Int := wrap64 (Int.tdiv a b)

/-! ## Configuration model (`pkg/model`) -/

/-- Modelled from the spec: `model.DataDogFilter`, the spec's `FilterSpec`
`{query: string, fromEpochMs: int64, toEpochMs: int64}`; the field names are
the ones `ddProcessor.go` reads and writes (`Query`, `From`, `To`). -/
structure DataDogFilter where
  Query : String
  From : Int
  To : Int
  deriving DecidableEq, Repr

/-- Modelled from the spec: `model.Interval`, `{from: int64, to: int64}` in
epoch milliseconds, with the field names used by `getInterval`. -/
structure Interval where
  From : Int
  To : Int
  deriving DecidableEq, Repr

/-- Modelled from the spec: one mapping rule of `y.Yaml.Spec.Mapping`,
`{outputField, sourcePath, innerField}`; in the source the three fields are
read as `Field` (compared with the sentinel `"-"`), `DdField` (the dotted
path) and `InnerField` (handed to `getAllValues`). -/
structure Mapping where
  Field : String
  DdField : String
  InnerField : String
  deriving DecidableEq, Repr

/-- The part of `model.YamlMapping.Spec` that the processor reads. -/
structure Spec where
  DatadogFilter : DataDogFilter
  Mapping : List Mapping
  deriving DecidableEq, Repr

/-- The configuration document `model.YamlMapping`. -/
structure YamlMapping where
  Spec : Spec
  deriving DecidableEq, Repr

/-- The receiver `YamlProcessor`. -/
structure YamlProcessor where
  Yaml : YamlMapping
  CsvFile : String
  deriving DecidableEq, Repr

/-! ## `getInterval` -/

/-- The body of `for i := 0; i < 10; i++` in `getInterval`, run for the
remaining number of iterations: `newInter := from + each_interval`, append
`{from, newInter}`, then `from = newInter`. -/
def getIntervalLoop (each_interval : Int) : Nat → Int → List Interval → List Interval
  | 0, _, interval => interval
  | n + 1, from_, interval =>
    let newInter := add64 from_ each_interval
    getIntervalLoop each_interval n newInter (interval ++ [{ From := from_, To := newInter }])

/-- `YamlProcessor.getInterval`. -/
def getInterval (y : YamlProcessor) : List Interval :=
  let from_ := y.Yaml.Spec.DatadogFilter.From
  let to_ := y.Yaml.Spec.DatadogFilter.To
  let diff_min := sub64 to_ from_
  if div64 diff_min 60000 < 10 then
    [{ From := from_, To := to_ }]
  else
    let each_interval := div64 diff_min 10
    let interval := getIntervalLoop each_interval 10 from_ []
    interval.modify (fun iv => { iv with To := to_ }) 9

/-- A processor whose filter spans `[from_, to_]`. -/
def processorFor (from_ to_ : Int) : YamlProcessor :=
  { Yaml := { Spec := { DatadogFilter := { Query := "", From := from_, To := to_ }, Mapping := [] } },
    CsvFile := "out.csv" }

/-- Membership of an epoch millisecond in an interval read as the closed range
`[From, To]`. -/
def Interval.contains (iv : Interval) (t : Int) : Prop := iv.From ≤ t ∧ t ≤ iv.To

instance (iv : Interval) (t : Int) : Decidable (iv.contains t) := by
  unfold Interval.contains; infer_instance

/-- The cut point `from + k * step` as the loop of `getInterval` computes it. -/
def cut (from_ step : Int) (k : Nat) : Int := wrap64 (from_ + k * step)

/-! ## Records (`datadogV2.Log`) -/

/-- The dynamic values an `interface{}` holds after JSON decoding: `nil`,
`bool`, a number (carried as an integer payload; no arithmetic is done on it
here), `string`, `[]interface{}` and `map[string]interface{}`. -/
inductive Value where
  | null : Value
  | bool (b : Bool) : Value
  | number (n : Int) : Value
  | str (s : String) : Value
  | seq (xs : List Value) : Value
  | map (kvs : List (String × Value)) : Value

/-- A Go `map[string]interface{}`, as an association list with distinct keys. -/
abbrev Attrs := List (String × Value)

/-- Reading `m[k]`: the stored value, or nothing when the key is absent. -/
def Attrs.get (m : Attrs) (k : String) : Option Value := List.lookup k m

/-- The assignment `m[k] = v`: any previous binding of `k` is replaced. -/
def Attrs.set (m : Attrs) (k : String) (v : Value) : Attrs :=
  (k, v) :: m.filter (fun kv => kv.1 != k)

/-- A `time.Time`, carried as an integer instant. -/
abbrev Time := Int

/-- The `datadogV2.LogAttributes` fields the processor touches. Pointer
fields are options (`none` is `nil`); `Attributes` is the attribute bag, a map
that may itself be `nil`. -/
structure LogAttributes where
  Attributes : Option Attrs
  Message : Option String
  Service : Option String
  Status : Option String
  Timestamp : Option Time

/-- A `datadogV2.Log`; `Attributes` is a pointer. -/
structure Log where
  Attributes : Option LogAttributes

/-- `LogAttributes.GetMessage`: the message, or the empty string when unset. -/
def LogAttributes.GetMessage (o : LogAttributes) : String :=
  match o.Message with
  | some m => m
  | none => ""

/-- `LogAttributes.HasMessage`: whether the message pointer is non-nil. -/
def LogAttributes.HasMessage (o : LogAttributes) : Bool := o.Message.isSome

/-- `LogsResponseMetadataPage`: the continuation token. -/
structure LogsResponseMetadataPage where
  After : Option String
  deriving DecidableEq, Repr

/-- `LogsResponseMetadataPage.GetAfterOk`. -/
def LogsResponseMetadataPage.GetAfterOk (o : LogsResponseMetadataPage) : Option String × Bool :=
  match o.After with
  | none => (none, false)
  | some a => (some a, true)

/-- `LogsResponseMetadata`. -/
structure LogsResponseMetadata where
  Page : Option LogsResponseMetadataPage
  deriving DecidableEq, Repr

/-- `LogsListResponse`: one page of records with its metadata. -/
structure LogsListResponse where
  Data : List Log
  Meta : Option LogsResponseMetadata

/-! ## Collaborators outside this file -/

/-- The error value built by `fmt.Errorf("not able to read value for '%s' field
in %#v", field_dep[n-1], outerObj)`, kept structured, and the error a
recovered panic is turned into by `Validate`. -/
inductive Error where
  | notAbleToRead (field : String) (outerObj : Attrs) : Error
  | recovered : Error

/-- The functions `ddProcessor.go` calls but does not define. The library
functions `time.Time.Format(time.RFC3339)`, `json.Marshal` (`none` is a
marshalling error) and `fmt.Sprint`; the package helpers `deepSearch`,
`getValue` and `getAllValues` (`none` is a panic; `getAllValues` yields the
strings it appends to the slice it is given); `util.ReadHeader` (yields the
header slice after the call); and the page fetch `dd.GetDataDogLogs`. -/
structure Env where
  formatRFC3339 : Time → String
  jsonMarshal : Option Attrs → Option String
  sprint : Value → String
  deepSearch : Attrs → List String → Option Attrs
  getValue : Mapping → Attrs → Option Value
  getAllValues : List Value → String → Option (List String)
  ReadHeader : List Mapping → List String → List String
  GetDataDogLogs : DataDogFilter → Option String → Nat → LogsListResponse

/-- How a Go function call ends: it returns its results `(val, err)`, it
panics, or the process exits through `log.Fatalf`. -/
inductive Outcome (α : Type) where
  | returned (val : α) (err : Option Error) : Outcome α
  | panicked : Outcome α
  | exited : Outcome α

/-! ## `strings.Split(s, ".")` -/

/-- Splitting a character list at every `'.'`; `cur` holds the characters of
the segment being read, most recent first. -/
def splitDotAux : List Char → List Char → List String
  | [], cur => [String.mk cur.reverse]
  | c :: cs, cur =>
    if c = '.' then String.mk cur.reverse :: splitDotAux cs [] else splitDotAux cs (c :: cur)

/-- Go's `strings.Split(s, ".")`; the result always has at least one segment. -/
def stringsSplitDot (s : String) : List String := splitDotAux s.data []

/-! ## `getLogs` -/

/-- How the loop over the mapping rules of one record ends. -/
inductive RuleLoop where
  | done (ddVal : List String) : RuleLoop
  | failed (err : Error) : RuleLoop
  | panicked : RuleLoop

/-- The loop `for _, fl := range y.Yaml.Spec.Mapping` of `getLogs` for one
record, whose attribute bag is `attributes` and whose cells so far are
`ddVal`. -/
def mappingLoop (env : Env) (attributes : Attrs) : List Mapping → List String → RuleLoop
  | [], ddVal => .done ddVal
  | fl :: rest, ddVal =>
    if fl.Field = "-" then
      let field_dep := stringsSplitDot fl.DdField
      let n := field_dep.length
      match env.deepSearch attributes field_dep with
      | none => .panicked
      | some outerObj =>
        match field_dep[n - 1]? with
        | none => .panicked
        | some key =>
          match outerObj.get key with
          | some (Value.seq obj) =>
            match env.getAllValues obj fl.InnerField with
            | none => .panicked
            | some newDdVal => mappingLoop env attributes rest (ddVal ++ newDdVal)
          | _ => .failed (Error.notAbleToRead key outerObj)
    else
      match env.getValue fl attributes with
      | none => .panicked
      | some val => mappingLoop env attributes rest (ddVal ++ [env.sprint val])

/-- How the body of the loop over the records ends for one record. -/
inductive EntryResult where
  | row (ddVal : List String) : EntryResult
  | failed (err : Error) : EntryResult
  | panicked : EntryResult
  | exited : EntryResult

/-- The body of `for _, log_entry := range source` in `getLogs`: the record as
the body leaves it (the attribute bag is shared with the caller, so the write
to its `"message"` key is visible there) and how the body ends. The write
dereferences `Message` in the branch where `HasMessage` holds. -/
def getLogsEntry (env : Env) (mapping : List Mapping) (log_entry : Log) : Log × EntryResult :=
  match log_entry.Attributes with
  | none => (log_entry, .panicked)
  | some la =>
    match la.Timestamp with
    | none => (log_entry, .panicked)
    | some timestamp =>
      match la.Service with
      | none => (log_entry, .panicked)
      | some service =>
        match la.Status with
        | none => (log_entry, .panicked)
        | some status =>
          let ddVal := [env.formatRFC3339 timestamp, service, status,
            "\"" ++ la.GetMessage ++ "\""]
          match env.jsonMarshal la.Attributes with
          | none => (log_entry, .exited)
          | some attributes_json =>
            let ddVal := ddVal ++ ["'" ++ attributes_json ++ "'"]
            match la.Attributes with
            | none => (log_entry, .panicked)
            | some bag =>
              let bag :=
                match la.HasMessage, la.Message with
                | true, some message => bag.set "message" (Value.str ("\"" ++ message ++ "\""))
                | _, _ => bag.set "message" (Value.str "\"\"")
              let log_entry : Log := { Attributes := some { la with Attributes := some bag } }
              match mappingLoop env bag mapping ddVal with
              | .done ddVal => (log_entry, .row ddVal)
              | .failed err => (log_entry, .failed err)
              | .panicked => (log_entry, .panicked)

/-- The loop over the records of `getLogs`, with the rows collected so far. -/
def getLogsLoop (env : Env) (mapping : List Mapping) :
    List Log → List (List String) → List Log × Outcome (List (List String))
  | [], csvValues => ([], .returned csvValues none)
  | log_entry :: rest, csvValues =>
    match getLogsEntry env mapping log_entry with
    | (log_entry, .row ddVal) =>
      let r := getLogsLoop env mapping rest (csvValues ++ [ddVal])
      (log_entry :: r.1, r.2)
    | (log_entry, .failed err) => (log_entry :: rest, .returned [] (some err))
    | (log_entry, .panicked) => (log_entry :: rest, .panicked)
    | (log_entry, .exited) => (log_entry :: rest, .exited)

/-- `YamlProcessor.getLogs`: the records as the call leaves them, and its
outcome. -/
def getLogs (env : Env) (y : YamlProcessor) (source : List Log) :
    List Log × Outcome (List (List String)) :=
  getLogsLoop env y.Yaml.Spec.Mapping source []

/-! ## Entry points -/

/-- What a run does to the outside world, in order. -/
inductive Event where
  | sleep (seconds : Nat) : Event
  | fetch (filter : DataDogFilter) (after : Option String) (limit : Nat) : Event
  | csvWriter (file : String) (headers : List String) (rows : List (List String)) : Event
  | send (rows : List (List String)) : Event
  deriving DecidableEq, Repr

/-- The header list `Validate` and `RunSync` build: five fixed names, then
`util.ReadHeader`. -/
def fixedHeaders (env : Env) (y : YamlProcessor) : List String :=
  env.ReadHeader y.Yaml.Spec.Mapping ["timestamp", "service", "status", "message", "attributes"]

/-- `YamlProcessor.Validate`: the results `(out, err)` it returns, with a panic
of `getLogs` recovered into `err`; `none` when the process exits instead. -/
def Validate (env : Env) (y : YamlProcessor) (_filename : String) :
    Option (List (List String) × Option Error) :=
  let out : List (List String) := []
  let headers := fixedHeaders env y
  let out := out ++ [headers]
  let logs := env.GetDataDogLogs y.Yaml.Spec.DatadogFilter none 10
  match (getLogs env y logs.Data).2 with
  | .returned _ (some err) => some ([], some err)
  | .returned csvValues none => some (out ++ csvValues, none)
  | .panicked => some (out, some Error.recovered)
  | .exited => none

/-- The recursive closure `ddLogs` of `RunSync`, with a bound on the number of
calls: the events it appends to `trace` and how it ends (`none` when the bound
is reached). -/
def ddLogs (env : Env) (y : YamlProcessor) :
    Nat → Option String → List Event → Option (Outcome Unit × List Event)
  | 0, _, _ => none
  | fuel + 1, after, trace =>
    let trace := trace ++ [Event.sleep 6]
    let logs := env.GetDataDogLogs y.Yaml.Spec.DatadogFilter after 5000
    let trace := trace ++ [Event.fetch y.Yaml.Spec.DatadogFilter after 5000]
    match (getLogs env y logs.Data).2 with
    | .returned _ (some _) => some (.returned () none, trace)
    | .panicked => some (.panicked, trace)
    | .exited => some (.exited, trace)
    | .returned csvValues none =>
      let trace := trace ++ [Event.csvWriter y.CsvFile [] csvValues]
      match logs.Meta with
      | none => some (.returned () none, trace)
      | some m =>
        match m.Page with
        | none => some (.returned () none, trace)
        | some page =>
          if page.After ≠ none then
            match page.GetAfterOk with
            | (aft, true) => ddLogs env y fuel aft trace
            | (_, false) => some (.returned () none, trace)
          else some (.returned () none, trace)

/-- `YamlProcessor.RunSync`: the error it returns and the events of the run. -/
def RunSync (env : Env) (y : YamlProcessor) (fuel : Nat) :
    Option (Outcome Unit × List Event) :=
  let headers := fixedHeaders env y
  let trace := [Event.csvWriter y.CsvFile headers []]
  match ddLogs env y fuel none trace with
  | none => none
  | some (.returned _ _, trace) => some (.returned () none, trace)
  | some (.panicked, trace) => some (.panicked, trace)
  | some (.exited, trace) => some (.exited, trace)

/-- The header `RunParallel` writes before starting its workers:
`util.ReadHeader` applied to an empty list. -/
def RunParallelHeaders (env : Env) (y : YamlProcessor) : List String :=
  env.ReadHeader y.Yaml.Spec.Mapping []

/-- The filters `RunParallel` hands to its workers, one per interval of
`getInterval`, in order. -/
def RunParallelFilters (y : YamlProcessor) : List DataDogFilter :=
  (getInterval y).map (fun win =>
    { Query := y.Yaml.Spec.DatadogFilter.Query, From := win.From, To := win.To })

/-- The recursive closure `nddLogs` that one worker of `RunParallel` runs on
its filter, with a bound on the number of calls. -/
def nddLogs (env : Env) (y : YamlProcessor) :
    Nat → Option String → DataDogFilter → List Event → Option (Outcome Unit × List Event)
  | 0, _, _, _ => none
  | fuel + 1, after, ddf, trace =>
    let logs := env.GetDataDogLogs ddf after 5000
    let trace := trace ++ [Event.fetch ddf after 5000]
    match (getLogs env y logs.Data).2 with
    | .returned _ (some _) => some (.exited, trace)
    | .panicked => some (.panicked, trace)
    | .exited => some (.exited, trace)
    | .returned csvValues none =>
      let trace := trace ++ [Event.send csvValues]
      match logs.Meta with
      | none => some (.returned () none, trace)
      | some m =>
        match m.Page with
        | none => some (.returned () none, trace)
        | some page =>
          if page.After ≠ none then
            match page.GetAfterOk with
            | (aft, true) => nddLogs env y fuel aft ddf trace
            | (_, false) => some (.returned () none, trace)
          else some (.returned () none, trace)

/-! ## Specification-side notions -/

/-- The continuation token of a page: present exactly when `Meta`, `Page` and
`After` are all non-nil. -/
def nextCursor (logs : LogsListResponse) : Option String :=
  match logs.Meta with
  | none => none
  | some m =>
    match m.Page with
    | none => none
    | some page => page.After

/-- The cursor of the `i`-th call (0-based) of the cursor chain of a
sequential run: absent for the first call, then the `nextCursor` of the page
before. -/
def cursorAt (env : Env) (y : YamlProcessor) : Nat → Option String
  | 0 => none
  | i + 1 => nextCursor (env.GetDataDogLogs y.Yaml.Spec.DatadogFilter (cursorAt env y i) 5000)

/-- The `i`-th page (0-based) of the cursor chain of a sequential run. -/
def pageAt (env : Env) (y : YamlProcessor) (i : Nat) : LogsListResponse :=
  env.GetDataDogLogs y.Yaml.Spec.DatadogFilter (cursorAt env y i) 5000

/-- The events of fetching page `i` of the chain and appending its rows. -/
def pageEvents (env : Env) (y : YamlProcessor) (rows : Nat → List (List String)) (i : Nat) :
    List Event :=
  [Event.sleep 6, Event.fetch y.Yaml.Spec.DatadogFilter (cursorAt env y i) 5000,
    Event.csvWriter y.CsvFile [] (rows i)]

/-- The events of pages `k`, `k + 1`, ..., `k + m - 1` of the chain, in order. -/
def pagesTrace (env : Env) (y : YamlProcessor) (rows : Nat → List (List String)) :
    Nat → Nat → List Event
  | _, 0 => []
  | k, m + 1 => pageEvents env y rows k ++ pagesTrace env y rows (k + 1) m

/-- The helpers and the JSON serialization never fail. -/
def Env.total (env : Env) : Prop :=
  (∀ a p, (env.deepSearch a p).isSome) ∧ (∀ fl a, (env.getValue fl a).isSome) ∧
    (∀ obj f, (env.getAllValues obj f).isSome) ∧ (∀ a, (env.jsonMarshal a).isSome)

/-- A record none of whose dereferenced fields is nil: the attributes, the
timestamp, the service, the status and the attribute bag are present. -/
def Log.complete (l : Log) : Bool :=
  match l.Attributes with
  | none => false
  | some la =>
    la.Timestamp.isSome && la.Service.isSome && la.Status.isSome && la.Attributes.isSome

/-- The attribute bag of a record after its `"message"` key has been set to the
quoted message text. -/
def Log.messageBag (l : Log) : Option Attrs :=
  match l.Attributes with
  | none => none
  | some la =>
    match la.Attributes with
    | none => none
    | some bag => some (bag.set "message" (Value.str ("\"" ++ la.GetMessage ++ "\"")))

/-- An array-expansion rule whose target is not a sequence: the value stored
under the final dotted segment of the rule's path, in the mapping `deepSearch`
returns, is absent or is not a sequence. -/
def notASequence (env : Env) (attributes : Attrs) (fl : Mapping) : Bool :=
  fl.Field == "-" &&
    match env.deepSearch attributes (stringsSplitDot fl.DdField) with
    | none => false
    | some outerObj =>
      match (stringsSplitDot fl.DdField)[(stringsSplitDot fl.DdField).length - 1]? with
      | none => false
      | some key =>
        match outerObj.get key with
        | some (Value.seq _) => false
        | _ => true

/-- The cells one mapping rule contributes to a row: a scalar rule gives the
one cell `fmt.Sprint` makes of `getValue`'s result; an array-expansion rule
gives the cells `getAllValues` extracts from the sequence. -/
def ruleCells (env : Env) (attributes : Attrs) (fl : Mapping) : Option (List String) :=
  if fl.Field = "-" then
    match env.deepSearch attributes (stringsSplitDot fl.DdField) with
    | none => none
    | some outerObj =>
      match (stringsSplitDot fl.DdField)[(stringsSplitDot fl.DdField).length - 1]? with
      | none => none
      | some key =>
        match outerObj.get key with
        | some (Value.seq obj) => env.getAllValues obj fl.InnerField
        | _ => none
  else
    match env.getValue fl attributes with
    | none => none
    | some val => some [env.sprint val]

/-- The mapping-derived cells of a row: the cells of each rule, concatenated in
rule order. -/
def mappingCells (env : Env) (attributes : Attrs) : List Mapping → Option (List String)
  | [] => some []
  | fl :: rest =>
    match ruleCells env attributes fl, mappingCells env attributes rest with
    | some c, some cs => some (c ++ cs)
    | _, _ => none

/-- The row of one record: timestamp as RFC3339, service, status, the message
in double quotes, the attribute bag as JSON text between single quotes, then
the mapping-derived cells. -/
def expectedRow (env : Env) (mapping : List Mapping) (l : Log) : Option (List String) :=
  match l.Attributes with
  | none => none
  | some la =>
    match la.Timestamp, la.Service, la.Status, env.jsonMarshal la.Attributes, l.messageBag with
    | some timestamp, some service, some status, some json, some bag =>
      match mappingCells env bag mapping with
      | some cells =>
        some ([env.formatRFC3339 timestamp, service, status, "\"" ++ la.GetMessage ++ "\"",
          "'" ++ json ++ "'"] ++ cells)
      | none => none
    | _, _, _, _, _ => none

/-- How the end of the rule loop becomes the end of the loop body. -/
def RuleLoop.toEntry : RuleLoop → EntryResult
  | .done ddVal => .row ddVal
  | .failed err => .failed err
  | .panicked => .panicked

/-- What `getLogs` does to the attribute bag of a record: `"message"` holds the
quoted message text, every other key reads as before. -/
def messageOverwritten (la : LogAttributes) (bag bag' : Attrs) : Prop :=
  bag'.get "message" = some (Value.str ("\"" ++ la.GetMessage ++ "\"")) ∧
    (la.Message = none → bag'.get "message" = some (Value.str "\"\"")) ∧
    ∀ key : String, key ≠ "message" → bag'.get key = bag.get key

/-! ## Sample inputs -/

/-- Modelled from the spec: `util.ReadHeader` appends exactly one column name
per rule, the rule's output field, to the header list it is given. -/
def ReadHeader (mapping : List Mapping) (headers : List String) : List String :=
  headers ++ mapping.map (fun fl => fl.Field)

/-- A record with every field present, whose bag holds a scalar `"id"`, a
sequence `"items"` and a `"message"` attribute of its own. -/
def sampleLog : Log :=
  { Attributes := some
      { Attributes := some [("id", Value.number 7), ("items", Value.seq [Value.str "x", Value.str "y"]),
          ("message", Value.str "raw")],
        Message := some "hello", Service := some "web", Status := some "info",
        Timestamp := some 0 } }

/-- The JSON text of the bag of `sampleLog`. -/
def sampleJson : String := "\x7b\"id\":7,\"items\":[\"x\",\"y\"],\"message\":\"raw\"\x7d"

/-- A record with every field present and an empty bag. -/
def sampleLogEmptyBag : Log :=
  { Attributes := some
      { Attributes := some [], Message := none, Service := some "web", Status := some "info",
        Timestamp := some 0 } }

/-- A record whose service is nil. -/
def sampleLogNoService : Log :=
  { Attributes := some
      { Attributes := some [], Message := none, Service := none, Status := some "info",
        Timestamp := some 0 } }

/-- A source with two pages: the first call returns one record and the token
`"c1"`, every call with a token returns one record and no token. -/
def sampleFetch (_filter : DataDogFilter) (after : Option String) (_limit : Nat) :
    LogsListResponse :=
  match after with
  | none => { Data := [sampleLog], Meta := some { Page := some { After := some "c1" } } }
  | some _ => { Data := [sampleLog], Meta := none }

/-- A source with two pages whose second page does not project under
`itemsRule`: the first call returns `sampleLog` and the token `"c1"`, every call
with a token returns a record without `"items"` and no token. -/
def sampleFetchFailing (_filter : DataDogFilter) (after : Option String) (_limit : Nat) :
    LogsListResponse :=
  match after with
  | none => { Data := [sampleLog], Meta := some { Page := some { After := some "c1" } } }
  | some _ => { Data := [sampleLogEmptyBag], Meta := none }

/-- An environment for evaluating the embedding on the sample records: the
library functions as they render those records, and for the package helpers
stand-ins that read the top level of the bag only. -/
def sampleEnv : Env :=
  { formatRFC3339 := fun _ => "1970-01-01T00:00:00Z"
    jsonMarshal := fun a => match a with
      | none => some "null"
      | some [] => some "\x7b\x7d"
      | some _ => some sampleJson
    sprint := fun v => match v with
      | Value.str s => s
      | Value.number _ => "7"
      | _ => "?"
    deepSearch := fun a _ => some a
    getValue := fun fl a => some ((a.get fl.DdField).getD Value.null)
    getAllValues := fun obj _ => some (obj.map (fun v => match v with
      | Value.str s => s
      | _ => "?"))
    ReadHeader := ReadHeader
    GetDataDogLogs := sampleFetch }

/-- The attributes cell of the row of `sampleLog`: its JSON text between
single quotes. -/
def sampleCell : String := "'" ++ sampleJson ++ "'"

/-- The sample environment over the source whose second page does not project. -/
def sampleEnvFailing : Env := { sampleEnv with GetDataDogLogs := sampleFetchFailing }

/-- A processor over the filter `[0, 1000000]` with the given mapping. -/
def sampleProcessor (mapping : List Mapping) : YamlProcessor :=
  { Yaml := { Spec := { DatadogFilter := { Query := "*", From := 0, To := 1000000 },
                        Mapping := mapping } },
    CsvFile := "out.csv" }

/-- A scalar rule reading `"id"`. -/
def scalarRule : Mapping := { Field := "id", DdField := "id", InnerField := "" }

/-- A scalar rule reading `"message"`. -/
def messageRule : Mapping := { Field := "msg", DdField := "message", InnerField := "" }

/-- An array-expansion rule over the sequence `"items"`. -/
def itemsRule : Mapping := { Field := "-", DdField := "items", InnerField := "v" }

/-- An array-expansion rule whose target `"id"` is a number. -/
def badRule : Mapping := { Field := "-", DdField := "id", InnerField := "v" }

/-! ## Arithmetic lemmas -/

theorem wrap64_eq_self {x : Int} (h : isInt64 x) : wrap64 x = x := by
  unfold isInt64 at h; unfold wrap64; omega

theorem isInt64_wrap64 (x : Int) : isInt64 (wrap64 x) := by
  unfold isInt64 wrap64; omega

theorem tdiv_of_nonneg {a : Int} (h : 0 ≤ a) (b : Nat) : a.tdiv (b : Int) = a / (b : Int) :=
  Int.tdiv_eq_ediv h (Int.ofNat_nonneg b)

theorem tdiv_of_neg {a : Int} (h : a < 0) (b : Nat) : a.tdiv (b : Int) = -((-a) / (b : Int)) := by
  have h1 : a = -(-a) := by omega
  rw [h1, Int.neg_tdiv, Int.tdiv_eq_ediv (by omega) (Int.ofNat_nonneg b)]
  simp

/-- Division by 60000 as `getInterval` performs it. -/
theorem div64_60000 (d : Int) (hd : isInt64 d) :
    div64 d 60000 = if 0 ≤ d then d / 60000 else -((-d) / 60000) := by
  unfold isInt64 at hd
  unfold div64
  split
  · next h =>
    have := tdiv_of_nonneg h 60000
    simp only [Nat.cast_ofNat] at this
    rw [this]; apply wrap64_eq_self; unfold isInt64; omega
  · next h =>
    have := tdiv_of_neg (not_le.mp h) 60000
    simp only [Nat.cast_ofNat] at this
    rw [this]; apply wrap64_eq_self; unfold isInt64; omega

/-- Division by 10 as `getInterval` performs it, on a non-negative span. -/
theorem div64_10 (d : Int) (hd : isInt64 d) (h : 0 ≤ d) : div64 d 10 = d / 10 := by
  unfold isInt64 at hd
  unfold div64
  have := tdiv_of_nonneg h 10
  simp only [Nat.cast_ofNat] at this
  rw [this]; apply wrap64_eq_self; unfold isInt64; omega

/-- The guard of `getInterval` is the comparison of the span with ten minutes. -/
theorem guard_iff (d : Int) (hd : isInt64 d) : div64 d 60000 < 10 ↔ d < 600000 := by
  rw [div64_60000 d hd]
  split <;> omega

theorem getInterval_small (y : YamlProcessor)
    (h : div64 (sub64 y.Yaml.Spec.DatadogFilter.To y.Yaml.Spec.DatadogFilter.From) 60000 < 10) :
    getInterval y =
      [{ From := y.Yaml.Spec.DatadogFilter.From, To := y.Yaml.Spec.DatadogFilter.To }] := by
  simp [getInterval, h]

theorem add64_cut (f s : Int) (k : Nat) : add64 (cut f s k) s = cut f s (k + 1) := by
  have h : ((k + 1 : Nat) : Int) * s = k * s + s := by push_cast; ring
  unfold add64 cut
  rw [h]
  unfold wrap64
  omega

theorem getInterval_large (y : YamlProcessor) (f t s : Int)
    (hF : y.Yaml.Spec.DatadogFilter.From = f) (hT : y.Yaml.Spec.DatadogFilter.To = t)
    (hs : div64 (sub64 t f) 10 = s) (hf : isInt64 f)
    (h : ¬ div64 (sub64 t f) 60000 < 10) :
    getInterval y =
      (List.range 9).map (fun i => { From := cut f s i, To := cut f s (i + 1) })
        ++ [{ From := cut f s 9, To := t }] := by
  have h0 : f = cut f s 0 := by simp [cut, wrap64_eq_self hf]
  simp only [getInterval, hF, hT, h, if_false, hs]
  generalize hg : getIntervalLoop s 10 f [] = l
  rw [h0] at hg
  simp only [getIntervalLoop, add64_cut] at hg
  subst hg
  rfl

/-- The list `getInterval` returns on a span of at least ten minutes, written
out element by element. -/
theorem getInterval_large_explicit (y : YamlProcessor) (f t s : Int)
    (hF : y.Yaml.Spec.DatadogFilter.From = f) (hT : y.Yaml.Spec.DatadogFilter.To = t)
    (hs : div64 (sub64 t f) 10 = s) (hf : isInt64 f)
    (h : ¬ div64 (sub64 t f) 60000 < 10) :
    getInterval y =
      [⟨wrap64 (f + 0 * s), wrap64 (f + 1 * s)⟩, ⟨wrap64 (f + 1 * s), wrap64 (f + 2 * s)⟩,
       ⟨wrap64 (f + 2 * s), wrap64 (f + 3 * s)⟩, ⟨wrap64 (f + 3 * s), wrap64 (f + 4 * s)⟩,
       ⟨wrap64 (f + 4 * s), wrap64 (f + 5 * s)⟩, ⟨wrap64 (f + 5 * s), wrap64 (f + 6 * s)⟩,
       ⟨wrap64 (f + 6 * s), wrap64 (f + 7 * s)⟩, ⟨wrap64 (f + 7 * s), wrap64 (f + 8 * s)⟩,
       ⟨wrap64 (f + 8 * s), wrap64 (f + 9 * s)⟩, ⟨wrap64 (f + 9 * s), t⟩] := by
  rw [getInterval_large y f t s hF hT hs hf h]
  simp [List.range, List.range.loop, cut]

/-- Claim C3: with the threshold of ten minutes, 600000 ms, whenever the
`int64` difference `to - from` that `getInterval` computes is below 600000
(also when `from > to`), `getInterval` returns exactly one interval, equal to
`{From: from, To: to}`; the test of the code, `(to - from) / 60000 < 10` under
truncating division, is equivalent to `to - from < 600000`. -/
theorem getInterval_below_threshold (y : YamlProcessor) :
    (div64 (sub64 y.Yaml.Spec.DatadogFilter.To y.Yaml.Spec.DatadogFilter.From) 60000 < 10 ↔
      sub64 y.Yaml.Spec.DatadogFilter.To y.Yaml.Spec.DatadogFilter.From < 600000) ∧
    (sub64 y.Yaml.Spec.DatadogFilter.To y.Yaml.Spec.DatadogFilter.From < 600000 →
      getInterval y =
        [{ From := y.Yaml.Spec.DatadogFilter.From, To := y.Yaml.Spec.DatadogFilter.To }]) := by
  have hg := guard_iff (sub64 y.Yaml.Spec.DatadogFilter.To y.Yaml.Spec.DatadogFilter.From)
    (isInt64_wrap64 _)
  exact ⟨hg, fun h => getInterval_small y (hg.mpr h)⟩

theorem getInterval_below_threshold_witness :
    isInt64 1000 ∧ isInt64 500 ∧ sub64 500 1000 < 600000 ∧
      getInterval (processorFor 1000 500) = [{ From := 1000, To := 500 }] :=
  ⟨by decide, by decide, by decide,
    (getInterval_below_threshold (processorFor 1000 500)).2 (by decide)⟩

/-- Claim C2: whenever the `int64` difference `to - from` that `getInterval`
computes is at least 600000 ms, `getInterval` returns exactly 10 intervals;
with `step = (to - from) / 10`, interval `i < 9` is
`[from + i * step, from + (i + 1) * step]` and has width exactly `step`, and the
last interval is `[from + 9 * step, to]`: its upper bound is the original `to`
and its width is `step + (to - from) mod 10`. The cut points are the `int64`
values the loop computes; when `from ≤ to` no sum wraps and the difference is
the mathematical one. -/
theorem getInterval_ten_intervals (y : YamlProcessor)
    (hf : isInt64 y.Yaml.Spec.DatadogFilter.From) (ht : isInt64 y.Yaml.Spec.DatadogFilter.To)
    (h : 600000 ≤ sub64 y.Yaml.Spec.DatadogFilter.To y.Yaml.Spec.DatadogFilter.From) :
    (getInterval y).length = 10 ∧
    (∀ i : Nat, i < 9 →
      (getInterval y)[i]? = some
        { From := wrap64 (y.Yaml.Spec.DatadogFilter.From + i *
            (sub64 y.Yaml.Spec.DatadogFilter.To y.Yaml.Spec.DatadogFilter.From / 10)),
          To := wrap64 (y.Yaml.Spec.DatadogFilter.From + (i + 1) *
            (sub64 y.Yaml.Spec.DatadogFilter.To y.Yaml.Spec.DatadogFilter.From / 10)) } ∧
      sub64 (wrap64 (y.Yaml.Spec.DatadogFilter.From + (i + 1) *
            (sub64 y.Yaml.Spec.DatadogFilter.To y.Yaml.Spec.DatadogFilter.From / 10)))
          (wrap64 (y.Yaml.Spec.DatadogFilter.From + i *
            (sub64 y.Yaml.Spec.DatadogFilter.To y.Yaml.Spec.DatadogFilter.From / 10))) =
        sub64 y.Yaml.Spec.DatadogFilter.To y.Yaml.Spec.DatadogFilter.From / 10) ∧
    (getInterval y)[9]? = some
        { From := wrap64 (y.Yaml.Spec.DatadogFilter.From + 9 *
            (sub64 y.Yaml.Spec.DatadogFilter.To y.Yaml.Spec.DatadogFilter.From / 10)),
          To := y.Yaml.Spec.DatadogFilter.To } ∧
    sub64 y.Yaml.Spec.DatadogFilter.To (wrap64 (y.Yaml.Spec.DatadogFilter.From + 9 *
            (sub64 y.Yaml.Spec.DatadogFilter.To y.Yaml.Spec.DatadogFilter.From / 10))) =
      sub64 y.Yaml.Spec.DatadogFilter.To y.Yaml.Spec.DatadogFilter.From / 10 +
        sub64 y.Yaml.Spec.DatadogFilter.To y.Yaml.Spec.DatadogFilter.From % 10 ∧
    (y.Yaml.Spec.DatadogFilter.From ≤ y.Yaml.Spec.DatadogFilter.To →
      sub64 y.Yaml.Spec.DatadogFilter.To y.Yaml.Spec.DatadogFilter.From =
        y.Yaml.Spec.DatadogFilter.To - y.Yaml.Spec.DatadogFilter.From ∧
      ∀ k : Nat, k ≤ 9 →
        wrap64 (y.Yaml.Spec.DatadogFilter.From + k *
            (sub64 y.Yaml.Spec.DatadogFilter.To y.Yaml.Spec.DatadogFilter.From / 10)) =
          y.Yaml.Spec.DatadogFilter.From + k *
            (sub64 y.Yaml.Spec.DatadogFilter.To y.Yaml.Spec.DatadogFilter.From / 10)) := by
  generalize hF : y.Yaml.Spec.DatadogFilter.From = f at *
  generalize hT : y.Yaml.Spec.DatadogFilter.To = t at *
  have hd : isInt64 (sub64 t f) := isInt64_wrap64 _
  have hg : ¬ div64 (sub64 t f) 60000 < 10 := by
    rw [guard_iff _ hd]; omega
  have hs : div64 (sub64 t f) 10 = sub64 t f / 10 := div64_10 _ hd (by omega)
  have hl := getInterval_large_explicit y f t _ hF hT hs hf hg
  have hsub : sub64 t f = wrap64 (t - f) := rfl
  generalize sub64 t f = d at *
  unfold isInt64 at hf ht hd
  unfold wrap64 at hsub
  refine ⟨by rw [hl]; rfl, ?_, by rw [hl]; rfl, ?_, ?_⟩
  · intro i hi
    rw [hl]
    interval_cases i <;> refine ⟨by simp, ?_⟩ <;> simp only [sub64, wrap64] <;> omega
  · simp only [sub64, wrap64]; omega
  · intro hle
    have hdd : d = t - f := by omega
    refine ⟨hdd, ?_⟩
    intro k hk
    interval_cases k <;> simp only [wrap64] <;> omega

theorem getInterval_ten_intervals_witness :
    isInt64 0 ∧ isInt64 1000000 ∧ 600000 ≤ sub64 1000000 0 ∧
    (getInterval (processorFor 0 1000000)).length = 10 ∧
    (getInterval (processorFor 0 1000000))[9]? = some { From := 900000, To := 1000000 } :=
  ⟨by decide, by decide, by decide,
    (getInterval_ten_intervals (processorFor 0 1000000) (by decide) (by decide) (by decide)).1,
    (getInterval_ten_intervals (processorFor 0 1000000) (by decide) (by decide)
      (by decide)).2.2.1.trans (by decide)⟩

/-- The list `getInterval` returns on a non-overflowing span of at least ten
minutes, with the wrapping of the cut points resolved. -/
theorem getInterval_large_plain (y : YamlProcessor) (f t : Int)
    (hF : y.Yaml.Spec.DatadogFilter.From = f) (hT : y.Yaml.Spec.DatadogFilter.To = t)
    (hf : isInt64 f) (ht : isInt64 t) (hle : f ≤ t) (h : 600000 ≤ sub64 t f) :
    sub64 t f = t - f ∧
    getInterval y =
      [⟨f, f + (t - f) / 10⟩, ⟨f + (t - f) / 10, f + 2 * ((t - f) / 10)⟩,
       ⟨f + 2 * ((t - f) / 10), f + 3 * ((t - f) / 10)⟩,
       ⟨f + 3 * ((t - f) / 10), f + 4 * ((t - f) / 10)⟩,
       ⟨f + 4 * ((t - f) / 10), f + 5 * ((t - f) / 10)⟩,
       ⟨f + 5 * ((t - f) / 10), f + 6 * ((t - f) / 10)⟩,
       ⟨f + 6 * ((t - f) / 10), f + 7 * ((t - f) / 10)⟩,
       ⟨f + 7 * ((t - f) / 10), f + 8 * ((t - f) / 10)⟩,
       ⟨f + 8 * ((t - f) / 10), f + 9 * ((t - f) / 10)⟩,
       ⟨f + 9 * ((t - f) / 10), t⟩] := by
  have hd : isInt64 (sub64 t f) := isInt64_wrap64 _
  have hg : ¬ div64 (sub64 t f) 60000 < 10 := by
    rw [guard_iff _ hd]; omega
  have hs : div64 (sub64 t f) 10 = sub64 t f / 10 := div64_10 _ hd (by omega)
  have hl := getInterval_large_explicit y f t _ hF hT hs hf hg
  have hsub : sub64 t f = wrap64 (t - f) := rfl
  unfold isInt64 at hf ht hd
  unfold wrap64 at hsub
  have hdd : sub64 t f = t - f := by omega
  rw [hdd] at hl h
  refine ⟨hdd, ?_⟩
  rw [hl]
  have w : ∀ k : Int, 0 ≤ k → k ≤ 9 → wrap64 (f + k * ((t - f) / 10)) = f + k * ((t - f) / 10) := by
    intro k h0 h9
    apply wrap64_eq_self
    unfold isInt64
    have h1 : 0 ≤ k * ((t - f) / 10) := Int.mul_nonneg h0 (by omega)
    have h2 : k * ((t - f) / 10) ≤ 9 * ((t - f) / 10) :=
      Int.mul_le_mul_of_nonneg_right h9 (by omega)
    omega
  rw [w 0 (by omega) (by omega), w 1 (by omega) (by omega), w 2 (by omega) (by omega),
    w 3 (by omega) (by omega), w 4 (by omega) (by omega), w 5 (by omega) (by omega),
    w 6 (by omega) (by omega), w 7 (by omega) (by omega), w 8 (by omega) (by omega),
    w 9 (by omega) (by omega)]
  simp

/-- On an ordered range whose difference overflows `int64`, or is below ten
minutes, `getInterval` returns the range itself. -/
theorem getInterval_single_of_lt (y : YamlProcessor)
    (h : sub64 y.Yaml.Spec.DatadogFilter.To y.Yaml.Spec.DatadogFilter.From < 600000) :
    getInterval y =
      [{ From := y.Yaml.Spec.DatadogFilter.From, To := y.Yaml.Spec.DatadogFilter.To }] :=
  getInterval_small y ((guard_iff _ (isInt64_wrap64 _)).mpr h)

/-- Claim C1: for every `from ≤ to` in epoch milliseconds, the list
`getInterval` returns is non-empty and ordered by `From`, its first interval
starts at `from`, its last interval ends at `to`, every interval has
`From ≤ To`, and each interval's `To` equals the next interval's `From`; hence
every millisecond `t` with `from ≤ t ≤ to` lies in at least one returned
interval and no returned interval contains a point outside `[from, to]`. (A
difference `to - from` that overflows `int64` wraps to a negative span, for
which the single interval `[from, to]` is returned, so the statement needs no
bound on the difference.) -/
theorem getInterval_covers (y : YamlProcessor)
    (hf : isInt64 y.Yaml.Spec.DatadogFilter.From) (ht : isInt64 y.Yaml.Spec.DatadogFilter.To)
    (hle : y.Yaml.Spec.DatadogFilter.From ≤ y.Yaml.Spec.DatadogFilter.To) :
    getInterval y ≠ [] ∧
    (getInterval y).Chain' (fun a b => a.From ≤ b.From) ∧
    (getInterval y).head?.map Interval.From = some y.Yaml.Spec.DatadogFilter.From ∧
    (getInterval y).getLast?.map Interval.To = some y.Yaml.Spec.DatadogFilter.To ∧
    (∀ iv ∈ getInterval y, iv.From ≤ iv.To) ∧
    (getInterval y).Chain' (fun a b => a.To = b.From) ∧
    (∀ t : Int, y.Yaml.Spec.DatadogFilter.From ≤ t → t ≤ y.Yaml.Spec.DatadogFilter.To →
      ∃ iv ∈ getInterval y, iv.contains t) ∧
    (∀ iv ∈ getInterval y, ∀ t : Int, iv.contains t →
      y.Yaml.Spec.DatadogFilter.From ≤ t ∧ t ≤ y.Yaml.Spec.DatadogFilter.To) := by
  by_cases hg : sub64 y.Yaml.Spec.DatadogFilter.To y.Yaml.Spec.DatadogFilter.From < 600000
  · rw [getInterval_single_of_lt y hg]
    simp only [Interval.contains]
    simp
    exact ⟨hle, fun t h1 h2 => ⟨h1, h2⟩⟩
  · obtain ⟨hd, hl⟩ := getInterval_large_plain y _ _ rfl rfl hf ht hle (by omega)
    rw [hl]
    rw [hd] at hg
    generalize y.Yaml.Spec.DatadogFilter.From = f at *
    generalize y.Yaml.Spec.DatadogFilter.To = t at *
    refine ⟨by simp, ?_, by simp, by simp, ?_, ?_, ?_, ?_⟩
    · simp only [List.chain'_cons, List.chain'_singleton, and_true]
      omega
    · simp only [List.mem_cons, List.mem_singleton, forall_eq_or_imp, forall_eq, List.not_mem_nil,
        false_implies, implies_true, and_true]
      omega
    · simp only [List.chain'_cons, List.chain'_singleton, and_true]
    · intro x h1 h2
      simp only [List.mem_cons, List.mem_singleton, exists_eq_or_imp, exists_eq_left,
        Interval.contains, List.not_mem_nil, false_and, exists_false, or_false]
      omega
    · simp only [List.mem_cons, List.mem_singleton, forall_eq_or_imp, forall_eq, List.not_mem_nil,
        false_implies, implies_true, and_true, Interval.contains]
      refine ⟨?_, ?_, ?_, ?_, ?_, ?_, ?_, ?_, ?_, ?_⟩ <;> intro x hx <;> omega

theorem getInterval_covers_witness :
    isInt64 0 ∧ isInt64 1000000 ∧
      (getInterval (processorFor 0 1000000)).getLast?.map Interval.To = some 1000000 :=
  ⟨by decide, by decide,
    (getInterval_covers (processorFor 0 1000000) (by decide) (by decide) (by decide)).2.2.2.1⟩

/-- On a range whose mathematical difference does not fit `int64`, the code
follows the wrapped difference: from the least to the greatest `int64` the
difference wraps to `-1` and one interval is returned; from `2^62` down to the
least `int64` it wraps to `2^62` and ten intervals are returned. -/
theorem getInterval_wrapped_difference :
    sub64 9223372036854775807 (-9223372036854775808) = -1 ∧
    getInterval (processorFor (-9223372036854775808) 9223372036854775807) =
      [{ From := -9223372036854775808, To := 9223372036854775807 }] ∧
    sub64 (-9223372036854775808) 4611686018427387904 = 4611686018427387904 ∧
    (getInterval (processorFor 4611686018427387904 (-9223372036854775808))).length = 10 := by
  decide

/-- Claim C4 fails for `from = 0`, `to = 600000`: the first two intervals
`getInterval` returns, handed unchanged to the first two workers of
`RunParallel` as their `From`/`To` bounds, are `[0, 60000]` and
`[60000, 120000]`, and the millisecond 60000 belongs to both. -/
theorem getInterval_overlap_counterexample :
    (0 : Int) ≤ 600000 ∧
    (RunParallelFilters (processorFor 0 600000))[0]? =
      some { Query := "", From := 0, To := 60000 } ∧
    (RunParallelFilters (processorFor 0 600000))[1]? =
      some { Query := "", From := 60000, To := 120000 } ∧
    ∃ (i j : Nat) (a b : Interval) (t : Int), i ≠ j ∧
      (getInterval (processorFor 0 600000))[i]? = some a ∧
      (getInterval (processorFor 0 600000))[j]? = some b ∧
      a.contains t ∧ b.contains t :=
  ⟨by decide, by decide, by decide, 0, 1, ⟨0, 60000⟩, ⟨60000, 120000⟩, 60000, by decide,
    by decide, by decide, by decide, by decide⟩

/-- Claim C4, amended: for every `from ≤ to`, two distinct intervals returned
by `getInterval`, read as the closed ranges `[From, To]`, share at most one
epoch millisecond, and only when they are adjacent: a `t` that belongs to the
intervals at positions `i < j` has `j = i + 1` and is their common boundary,
`t = To` of the first and `t = From` of the second. Read as the half-open
ranges `[From, To)`, no `t` belongs to two distinct returned intervals. -/
theorem getInterval_overlap_only_at_boundary (y : YamlProcessor)
    (hf : isInt64 y.Yaml.Spec.DatadogFilter.From) (ht : isInt64 y.Yaml.Spec.DatadogFilter.To)
    (hle : y.Yaml.Spec.DatadogFilter.From ≤ y.Yaml.Spec.DatadogFilter.To)
    (i j : Nat) (a b : Interval) (t : Int) (hij : i < j)
    (ha : (getInterval y)[i]? = some a) (hb : (getInterval y)[j]? = some b) :
    (a.contains t → b.contains t → j = i + 1 ∧ t = a.To ∧ t = b.From) ∧
    ¬ ((a.From ≤ t ∧ t < a.To) ∧ (b.From ≤ t ∧ t < b.To)) := by
  by_cases hg : sub64 y.Yaml.Spec.DatadogFilter.To y.Yaml.Spec.DatadogFilter.From < 600000
  · rw [getInterval_single_of_lt y hg] at hb
    obtain ⟨j, rfl⟩ : ∃ k, j = k + 1 := ⟨j - 1, by omega⟩
    simp at hb
  · obtain ⟨hd, hl⟩ := getInterval_large_plain y _ _ rfl rfl hf ht hle (by omega)
    rw [hl] at ha hb
    rw [hd] at hg
    generalize y.Yaml.Spec.DatadogFilter.From = f at *
    generalize y.Yaml.Spec.DatadogFilter.To = t0 at *
    have hj : j < 10 := by
      by_contra hc
      rw [List.getElem?_eq_none (by simp; omega)] at hb
      exact absurd hb (by simp)
    unfold Interval.contains
    interval_cases j <;> interval_cases i <;>
      simp only [List.getElem?_cons_succ, List.getElem?_cons_zero, Option.some.injEq] at ha hb <;>
      subst ha <;> subst hb <;>
      refine ⟨fun h1 h2 => ?_, fun h => ?_⟩ <;> dsimp only at * <;> omega

theorem getInterval_overlap_only_at_boundary_witness :
    isInt64 0 ∧ isInt64 600000 ∧ (0 : Int) ≤ 600000 ∧
    ((Interval.mk 0 60000).contains 60000 → (Interval.mk 60000 120000).contains 60000 →
      1 = 0 + 1 ∧ (60000 : Int) = (Interval.mk 0 60000).To ∧
        (60000 : Int) = (Interval.mk 60000 120000).From) :=
  ⟨by decide, by decide, by decide,
    (getInterval_overlap_only_at_boundary (processorFor 0 600000) (by decide) (by decide)
      (by decide) 0 1 ⟨0, 60000⟩ ⟨60000, 120000⟩ 60000 (by decide) (by decide) (by decide)).1⟩

/-! ## The sequential cursor loop -/

/-- One call of `ddLogs` on a page that projects and carries a token: the
page's events are appended and the closure calls itself with the token. -/
theorem ddLogs_step_more (env : Env) (y : YamlProcessor) (fuel : Nat) (after : Option String)
    (trace : List Event) (csvValues : List (List String)) (c : String)
    (hp : (getLogs env y (env.GetDataDogLogs y.Yaml.Spec.DatadogFilter after 5000).Data).2 =
      .returned csvValues none)
    (hc : nextCursor (env.GetDataDogLogs y.Yaml.Spec.DatadogFilter after 5000) = some c) :
    ddLogs env y (fuel + 1) after trace =
      ddLogs env y fuel (some c)
        (trace ++ [Event.sleep 6, Event.fetch y.Yaml.Spec.DatadogFilter after 5000,
          Event.csvWriter y.CsvFile [] csvValues]) := by
  rw [ddLogs]
  simp only [hp]
  unfold nextCursor at hc
  cases hm : (env.GetDataDogLogs y.Yaml.Spec.DatadogFilter after 5000).Meta with
  | none => rw [hm] at hc; exact absurd hc (by simp)
  | some m =>
    rw [hm] at hc
    cases hpg : m.Page with
    | none => simp [hpg] at hc
    | some page =>
      simp only [hpg] at hc
      simp [hpg, hc, LogsResponseMetadataPage.GetAfterOk]

/-- One call of `ddLogs` on a page that projects and carries no token: the
page's events are appended and the closure returns. -/
theorem ddLogs_step_last (env : Env) (y : YamlProcessor) (fuel : Nat) (after : Option String)
    (trace : List Event) (csvValues : List (List String))
    (hp : (getLogs env y (env.GetDataDogLogs y.Yaml.Spec.DatadogFilter after 5000).Data).2 =
      .returned csvValues none)
    (hc : nextCursor (env.GetDataDogLogs y.Yaml.Spec.DatadogFilter after 5000) = none) :
    ddLogs env y (fuel + 1) after trace =
      some (.returned () none,
        trace ++ [Event.sleep 6, Event.fetch y.Yaml.Spec.DatadogFilter after 5000,
          Event.csvWriter y.CsvFile [] csvValues]) := by
  rw [ddLogs]
  simp only [hp]
  unfold nextCursor at hc
  cases hm : (env.GetDataDogLogs y.Yaml.Spec.DatadogFilter after 5000).Meta with
  | none => simp
  | some m =>
    rw [hm] at hc
    cases hpg : m.Page with
    | none => simp [hpg]
    | some page =>
      simp only [hpg] at hc
      simp [hpg, hc]

/-- The closure `ddLogs`, started at page `k` of a chain whose last page is
page `k + m`, fetches and appends the pages `k`, ..., `k + m` and returns. -/
theorem ddLogs_chain (env : Env) (y : YamlProcessor) (rows : Nat → List (List String)) :
    ∀ (m k fuel : Nat) (trace : List Event),
      (∀ i, k ≤ i → i ≤ k + m → (getLogs env y (pageAt env y i).Data).2 = .returned (rows i) none) →
      (∀ i, k ≤ i → i < k + m → nextCursor (pageAt env y i) ≠ none) →
      nextCursor (pageAt env y (k + m)) = none →
      m + 1 ≤ fuel →
      ddLogs env y fuel (cursorAt env y k) trace =
        some (.returned () none, trace ++ pagesTrace env y rows k (m + 1)) := by
  intro m
  induction m with
  | zero =>
    intro k fuel trace hp _ hlast hfuel
    obtain ⟨f, rfl⟩ : ∃ f, fuel = f + 1 := ⟨fuel - 1, by omega⟩
    have h1 := hp k (le_refl _) (by omega)
    rw [ddLogs_step_last env y f (cursorAt env y k) trace (rows k) h1 hlast]
    simp [pagesTrace, pageEvents]
  | succ m ih =>
    intro k fuel trace hp hmore hlast hfuel
    obtain ⟨f, rfl⟩ : ∃ f, fuel = f + 1 := ⟨fuel - 1, by omega⟩
    have h1 := hp k (le_refl _) (by omega)
    have h2 := hmore k (le_refl _) (by omega)
    obtain ⟨c, hc⟩ := Option.ne_none_iff_exists'.mp h2
    rw [ddLogs_step_more env y f (cursorAt env y k) trace (rows k) c h1 hc]
    have hk : cursorAt env y (k + 1) = some c := by
      rw [cursorAt]; exact hc
    rw [← hk]
    rw [ih (k + 1) f _ (fun i h1 h2 => hp i (by omega) (by omega))
      (fun i h1 h2 => hmore i (by omega) (by omega))
      (by rw [show k + 1 + m = k + (m + 1) by omega]; exact hlast) (by omega)]
    rw [pagesTrace.eq_2 env y rows k (m + 1)]
    simp [pageEvents, List.append_assoc]

/-- Claim C5: for a source, taken as a function from (filter, cursor, page
size) to a page, whose cursor chain started from the absent cursor reaches a
page with no `nextCursor` after `n ≥ 1` pages that all project successfully,
`RunSync` (given at least `n` calls of its closure) returns, having fetched
exactly `n` times: the first call with an absent cursor, call `i + 1` with the
`nextCursor` of page `i`, every call with the configured filter and page size
5000. The sink receives the header exactly once, before any data, then the
projected rows of the pages in page order, one append per page. -/
theorem RunSync_follows_cursor_chain (env : Env) (y : YamlProcessor)
    (rows : Nat → List (List String)) (n fuel : Nat) (hn : 1 ≤ n)
    (hproject : ∀ i, i < n → (getLogs env y (pageAt env y i).Data).2 = .returned (rows i) none)
    (hmore : ∀ i, i + 1 < n → nextCursor (pageAt env y i) ≠ none)
    (hlast : nextCursor (pageAt env y (n - 1)) = none)
    (hfuel : n ≤ fuel) :
    cursorAt env y 0 = none ∧
    (∀ i, cursorAt env y (i + 1) = nextCursor (pageAt env y i)) ∧
    RunSync env y fuel =
      some (.returned () none,
        Event.csvWriter y.CsvFile (fixedHeaders env y) [] :: pagesTrace env y rows 0 n) := by
  refine ⟨rfl, fun i => rfl, ?_⟩
  obtain ⟨m, rfl⟩ : ∃ m, n = m + 1 := ⟨n - 1, by omega⟩
  have h := ddLogs_chain env y rows m 0 fuel
    [Event.csvWriter y.CsvFile (fixedHeaders env y) []]
    (fun i _ h2 => hproject i (by omega)) (fun i _ h2 => hmore i (by omega))
    (by simpa using hlast) hfuel
  have h0 : cursorAt env y 0 = none := rfl
  rw [h0] at h
  simp only [RunSync, h]
  simp

theorem RunSync_follows_cursor_chain_witness :
    RunSync sampleEnv (sampleProcessor [scalarRule]) 2 =
      some (.returned () none,
        [Event.csvWriter "out.csv"
            ["timestamp", "service", "status", "message", "attributes", "id"] [],
          Event.sleep 6, Event.fetch ⟨"*", 0, 1000000⟩ none 5000,
          Event.csvWriter "out.csv" []
            [["1970-01-01T00:00:00Z", "web", "info", "\"hello\"", sampleCell, "7"]],
          Event.sleep 6, Event.fetch ⟨"*", 0, 1000000⟩ (some "c1") 5000,
          Event.csvWriter "out.csv" []
            [["1970-01-01T00:00:00Z", "web", "info", "\"hello\"", sampleCell, "7"]]]) :=
  (RunSync_follows_cursor_chain sampleEnv (sampleProcessor [scalarRule])
    (fun _ => [["1970-01-01T00:00:00Z", "web", "info", "\"hello\"", sampleCell, "7"]]) 2 2
    (by decide)
    (fun i hi => by
      have : i = 0 ∨ i = 1 := by omega
      rcases this with rfl | rfl <;> rfl)
    (fun i hi => by
      have : i = 0 := by omega
      subst this
      exact Option.some_ne_none "c1")
    rfl (le_refl 2)).2.2

/-- One call of `ddLogs` on a page whose projection returns an error: the
closure returns after the fetch. -/
theorem ddLogs_step_error (env : Env) (y : YamlProcessor) (fuel : Nat) (after : Option String)
    (trace : List Event) (rows : List (List String)) (e : Error)
    (hp : (getLogs env y (env.GetDataDogLogs y.Yaml.Spec.DatadogFilter after 5000).Data).2 =
      .returned rows (some e)) :
    ddLogs env y (fuel + 1) after trace =
      some (.returned () none,
        trace ++ [Event.sleep 6, Event.fetch y.Yaml.Spec.DatadogFilter after 5000]) := by
  rw [ddLogs]
  simp [hp]

/-- The closure `ddLogs`, started at page `k` of a chain whose pages `k`, ...,
`k + m - 1` project and carry a token and whose page `k + m` fails to project,
appends the pages before the failing one, fetches the failing one and
returns. -/
theorem ddLogs_chain_error (env : Env) (y : YamlProcessor) (rows : Nat → List (List String))
    (bad : List (List String)) (e : Error) :
    ∀ (m k fuel : Nat) (trace : List Event),
      (∀ i, k ≤ i → i < k + m → (getLogs env y (pageAt env y i).Data).2 = .returned (rows i) none) →
      (∀ i, k ≤ i → i < k + m → nextCursor (pageAt env y i) ≠ none) →
      (getLogs env y (pageAt env y (k + m)).Data).2 = .returned bad (some e) →
      m + 1 ≤ fuel →
      ddLogs env y fuel (cursorAt env y k) trace =
        some (.returned () none, trace ++ (pagesTrace env y rows k m ++
          [Event.sleep 6, Event.fetch y.Yaml.Spec.DatadogFilter (cursorAt env y (k + m)) 5000])) := by
  intro m
  induction m with
  | zero =>
    intro k fuel trace _ _ hbad hfuel
    obtain ⟨f, rfl⟩ : ∃ f, fuel = f + 1 := ⟨fuel - 1, by omega⟩
    rw [ddLogs_step_error env y f (cursorAt env y k) trace bad e hbad]
    simp [pagesTrace]
  | succ m ih =>
    intro k fuel trace hp hmore hbad hfuel
    obtain ⟨f, rfl⟩ : ∃ f, fuel = f + 1 := ⟨fuel - 1, by omega⟩
    have h1 := hp k (le_refl _) (by omega)
    have h2 := hmore k (le_refl _) (by omega)
    obtain ⟨c, hc⟩ := Option.ne_none_iff_exists'.mp h2
    rw [ddLogs_step_more env y f (cursorAt env y k) trace (rows k) c h1 hc]
    have hk : cursorAt env y (k + 1) = some c := by
      rw [cursorAt]; exact hc
    rw [← hk]
    rw [ih (k + 1) f _ (fun i h1 h2 => hp i (by omega) (by omega))
      (fun i h1 h2 => hmore i (by omega) (by omega))
      (by rw [show k + 1 + m = k + (m + 1) by omega]; exact hbad) (by omega)]
    rw [pagesTrace.eq_2 env y rows k m, show k + 1 + m = k + (m + 1) by omega]
    simp [pageEvents, List.append_assoc]

/-- Claim C8 fails on the code: when the pages before page `k` of the cursor
chain project and the projection of page `k` returns an error, `RunSync`
(given at least `k + 1` calls of its closure) still returns a nil error to its
caller; the header and the rows of the pages before `k` have been written, page
`k` has been fetched, none of its rows is appended and no further page is
fetched. -/
theorem RunSync_swallows_projection_error (env : Env) (y : YamlProcessor)
    (rows : Nat → List (List String)) (bad : List (List String)) (e : Error) (k fuel : Nat)
    (hproject : ∀ i, i < k → (getLogs env y (pageAt env y i).Data).2 = .returned (rows i) none)
    (hmore : ∀ i, i < k → nextCursor (pageAt env y i) ≠ none)
    (hbad : (getLogs env y (pageAt env y k).Data).2 = .returned bad (some e))
    (hfuel : k + 1 ≤ fuel) :
    RunSync env y fuel =
      some (.returned () none,
        Event.csvWriter y.CsvFile (fixedHeaders env y) [] :: (pagesTrace env y rows 0 k ++
          [Event.sleep 6, Event.fetch y.Yaml.Spec.DatadogFilter (cursorAt env y k) 5000])) := by
  have h := ddLogs_chain_error env y rows bad e k 0 fuel
    [Event.csvWriter y.CsvFile (fixedHeaders env y) []]
    (fun i _ h2 => hproject i (by omega)) (fun i _ h2 => hmore i (by omega))
    (by simpa using hbad) hfuel
  have h0 : cursorAt env y 0 = none := rfl
  rw [h0] at h
  simp only [RunSync, h]
  simp

theorem RunSync_swallows_projection_error_witness :
    (getLogs sampleEnvFailing (sampleProcessor [itemsRule])
        (pageAt sampleEnvFailing (sampleProcessor [itemsRule]) 1).Data).2 =
      .returned [] (some (Error.notAbleToRead "items" [("message", Value.str "\"\"")])) ∧
    RunSync sampleEnvFailing (sampleProcessor [itemsRule]) 2 =
      some (.returned () none,
        [Event.csvWriter "out.csv" ["timestamp", "service", "status", "message", "attributes", "-"] [],
          Event.sleep 6, Event.fetch ⟨"*", 0, 1000000⟩ none 5000,
          Event.csvWriter "out.csv" []
            [["1970-01-01T00:00:00Z", "web", "info", "\"hello\"", sampleCell, "x", "y"]],
          Event.sleep 6, Event.fetch ⟨"*", 0, 1000000⟩ (some "c1") 5000]) :=
  ⟨rfl, RunSync_swallows_projection_error sampleEnvFailing (sampleProcessor [itemsRule])
    (fun _ => [["1970-01-01T00:00:00Z", "web", "info", "\"hello\"", sampleCell, "x", "y"]]) []
    (Error.notAbleToRead "items" [("message", Value.str "\"\"")]) 1 2
    (fun i hi => by
      have : i = 0 := by omega
      subst this
      rfl)
    (fun i hi => by
      have : i = 0 := by omega
      subst this
      exact Option.some_ne_none "c1")
    rfl (le_refl 2)⟩

/-! ## The record projector -/

theorem splitDotAux_ne_nil : ∀ (cs cur : List Char), splitDotAux cs cur ≠ []
  | [], cur => by simp [splitDotAux]
  | c :: cs, cur => by
    rw [splitDotAux]
    split
    · simp
    · exact splitDotAux_ne_nil cs (c :: cur)

/-- The index `field_dep[n-1]` of `getLogs` is always in range. -/
theorem stringsSplitDot_last (s : String) :
    ∃ key, (stringsSplitDot s)[(stringsSplitDot s).length - 1]? = some key := by
  have h : stringsSplitDot s ≠ [] := splitDotAux_ne_nil _ _
  have hl : 0 < (stringsSplitDot s).length := List.length_pos.mpr h
  exact ⟨(stringsSplitDot s)[(stringsSplitDot s).length - 1], List.getElem?_eq_getElem (by omega)⟩

theorem Attrs.get_set_self (m : Attrs) (k : String) (v : Value) : (m.set k v).get k = some v := by
  simp [Attrs.get, Attrs.set, List.lookup]

theorem lookup_filter_ne (m : Attrs) (k key : String) (h : key ≠ k) :
    List.lookup key (m.filter (fun kv => kv.1 != k)) = List.lookup key m := by
  induction m with
  | nil => rfl
  | cons kv rest ih =>
    obtain ⟨a, b⟩ := kv
    by_cases hk : a = k
    · subst hk
      have h1 : (key == a) = false := by simpa using h
      simp [List.filter, List.lookup, h1, ih]
    · have h2 : (a != k) = true := by simpa using hk
      simp only [List.filter, h2, List.lookup, ih]

theorem Attrs.get_set_other (m : Attrs) (k key : String) (v : Value) (h : key ≠ k) :
    (m.set k v).get key = m.get key := by
  have h1 : (key == k) = false := by simpa using h
  simp [Attrs.get, Attrs.set, List.lookup, h1, lookup_filter_ne m k key h]

/-- The bag `getLogs` leaves behind, whichever branch of `HasMessage` is taken. -/
theorem message_write_eq (la : LogAttributes) (bag : Attrs) :
    (match la.HasMessage, la.Message with
      | true, some message => bag.set "message" (Value.str ("\"" ++ message ++ "\""))
      | _, _ => bag.set "message" (Value.str "\"\"")) =
      bag.set "message" (Value.str ("\"" ++ la.GetMessage ++ "\"")) := by
  cases h : la.Message with
  | none => simp [LogAttributes.HasMessage, LogAttributes.GetMessage, h]
  | some m => simp [LogAttributes.HasMessage, LogAttributes.GetMessage, h]

/-- When the rule loop completes, the cells it has appended are the cells of
the rules, in rule order. -/
theorem mappingLoop_done (env : Env) (a : Attrs) :
    ∀ (mapping : List Mapping) (acc row : List String),
      mappingLoop env a mapping acc = .done row →
      ∃ cells, mappingCells env a mapping = some cells ∧ row = acc ++ cells := by
  intro mapping
  induction mapping with
  | nil =>
    intro acc row h
    simp only [mappingLoop, RuleLoop.done.injEq] at h
    exact ⟨[], rfl, by simp [h]⟩
  | cons fl rest ih =>
    intro acc row h
    rw [mappingLoop] at h
    by_cases hf : fl.Field = "-"
    · simp only [hf, if_true] at h
      cases hd : env.deepSearch a (stringsSplitDot fl.DdField) with
      | none => simp [hd] at h
      | some outerObj =>
        simp only [hd] at h
        cases hk : (stringsSplitDot fl.DdField)[(stringsSplitDot fl.DdField).length - 1]? with
        | none => simp [hk] at h
        | some key =>
          simp only [hk] at h
          split at h
          · next obj hobj =>
            cases hg : env.getAllValues obj fl.InnerField with
            | none => simp [hg] at h
            | some newDdVal =>
              simp only [hg] at h
              obtain ⟨cells, hc, hr⟩ := ih _ _ h
              refine ⟨newDdVal ++ cells, ?_, by simp [hr]⟩
              simp [mappingCells, ruleCells, hf, hd, hk, hobj, hg, hc]
          · exact absurd h (by simp)
    · simp only [hf, if_false] at h
      cases hv : env.getValue fl a with
      | none => simp [hv] at h
      | some val =>
        simp only [hv] at h
        obtain ⟨cells, hc, hr⟩ := ih _ _ h
        refine ⟨env.sprint val :: cells, ?_, by simp [hr]⟩
        simp [mappingCells, ruleCells, hf, hv, hc]

/-- The loop body on a record whose dereferenced fields are all present and
whose bag serializes. -/
theorem getLogsEntry_eq (env : Env) (mapping : List Mapping) (l : Log) (la : LogAttributes)
    (ts : Time) (sv st : String) (bag : Attrs) (json : String)
    (hla : l.Attributes = some la) (hts : la.Timestamp = some ts) (hsv : la.Service = some sv)
    (hst : la.Status = some st) (hb : la.Attributes = some bag)
    (hj : env.jsonMarshal (some bag) = some json) :
    getLogsEntry env mapping l =
      ({ Attributes := some { la with
            Attributes := some (bag.set "message" (Value.str ("\"" ++ la.GetMessage ++ "\""))) } },
        (mappingLoop env (bag.set "message" (Value.str ("\"" ++ la.GetMessage ++ "\""))) mapping
          [env.formatRFC3339 ts, sv, st, "\"" ++ la.GetMessage ++ "\"", "'" ++ json ++ "'"]).toEntry) := by
  unfold getLogsEntry
  simp only [hla, hts, hsv, hst, hb, hj, message_write_eq, List.cons_append, List.nil_append]
  cases mappingLoop env (bag.set "message" (Value.str ("\"" ++ la.GetMessage ++ "\""))) mapping
    [env.formatRFC3339 ts, sv, st, "\"" ++ la.GetMessage ++ "\"", "'" ++ json ++ "'"] <;>
  simp [RuleLoop.toEntry]

/-- The loop body either stops before touching the record, by a panic or an
exit, or runs on a record whose fields are all present. -/
theorem getLogsEntry_cases (env : Env) (mapping : List Mapping) (l : Log) :
    ((getLogsEntry env mapping l).1 = l ∧
      ((getLogsEntry env mapping l).2 = .panicked ∨ (getLogsEntry env mapping l).2 = .exited)) ∨
    ∃ la ts sv st bag json, l.Attributes = some la ∧ la.Timestamp = some ts ∧
      la.Service = some sv ∧ la.Status = some st ∧ la.Attributes = some bag ∧
      env.jsonMarshal (some bag) = some json := by
  cases hla : l.Attributes with
  | none => left; simp [getLogsEntry, hla]
  | some la =>
    cases hts : la.Timestamp with
    | none => left; simp [getLogsEntry, hla, hts]
    | some ts =>
      cases hsv : la.Service with
      | none => left; simp [getLogsEntry, hla, hts, hsv]
      | some sv =>
        cases hst : la.Status with
        | none => left; simp [getLogsEntry, hla, hts, hsv, hst]
        | some st =>
          cases hj : env.jsonMarshal la.Attributes with
          | none => left; simp [getLogsEntry, hla, hts, hsv, hst, hj]
          | some json =>
            cases hb : la.Attributes with
            | none =>
              left
              rw [hb] at hj
              simp [getLogsEntry, hla, hts, hsv, hst, hj, hb]
            | some bag =>
              right
              rw [hb] at hj
              exact ⟨la, ts, sv, st, bag, json, rfl, hts, hsv, hst, hb, hj⟩

/-- A record whose loop body yields a row yields the expected row. -/
theorem getLogsEntry_row (env : Env) (mapping : List Mapping) (l l' : Log) (row : List String)
    (h : getLogsEntry env mapping l = (l', .row row)) : expectedRow env mapping l = some row := by
  rcases getLogsEntry_cases env mapping l with ⟨_, h2⟩ | ⟨la, ts, sv, st, bag, json, hla, hts, hsv, hst, hb, hj⟩
  · rw [h] at h2
    simp at h2
  · rw [getLogsEntry_eq env mapping l la ts sv st bag json hla hts hsv hst hb hj] at h
    simp only [Prod.mk.injEq] at h
    cases hm : mappingLoop env (bag.set "message" (Value.str ("\"" ++ la.GetMessage ++ "\""))) mapping
        [env.formatRFC3339 ts, sv, st, "\"" ++ la.GetMessage ++ "\"", "'" ++ json ++ "'"] with
    | done ddVal =>
      rw [hm] at h
      simp only [RuleLoop.toEntry, EntryResult.row.injEq] at h
      obtain ⟨cells, hc, hr⟩ := mappingLoop_done env _ _ _ _ hm
      simp only [expectedRow, Log.messageBag, hla, hts, hsv, hst, hb, hj, hc]
      rw [← h.2, hr]
    | failed e => rw [hm] at h; simp [RuleLoop.toEntry] at h
    | panicked => rw [hm] at h; simp [RuleLoop.toEntry] at h

/-- One step of the loop over the records. -/
theorem getLogsLoop_cons (env : Env) (mapping : List Mapping) (l : Log) (rest : List Log)
    (acc : List (List String)) :
    getLogsLoop env mapping (l :: rest) acc =
      match (getLogsEntry env mapping l).2 with
      | .row ddVal =>
        ((getLogsEntry env mapping l).1 :: (getLogsLoop env mapping rest (acc ++ [ddVal])).1,
          (getLogsLoop env mapping rest (acc ++ [ddVal])).2)
      | .failed err => ((getLogsEntry env mapping l).1 :: rest, .returned [] (some err))
      | .panicked => ((getLogsEntry env mapping l).1 :: rest, .panicked)
      | .exited => ((getLogsEntry env mapping l).1 :: rest, .exited) := by
  rw [getLogsLoop]
  rcases hE : getLogsEntry env mapping l with ⟨l', r⟩
  cases r <;> rfl

/-- When the loop over the records returns rows without an error, the rows it
has appended are the expected rows of the records, in order. -/
theorem getLogsLoop_rows (env : Env) (mapping : List Mapping) :
    ∀ (source : List Log) (acc : List (List String)) (rows : List (List String)),
      (getLogsLoop env mapping source acc).2 = .returned rows none →
      ∃ rows', rows = acc ++ rows' ∧
        List.Forall₂ (fun l r => expectedRow env mapping l = some r) source rows' := by
  intro source
  induction source with
  | nil =>
    intro acc rows h
    simp only [getLogsLoop, Outcome.returned.injEq, and_true] at h
    exact ⟨[], by simp [h], List.Forall₂.nil⟩
  | cons l rest ih =>
    intro acc rows h
    rw [getLogsLoop_cons] at h
    cases hE : (getLogsEntry env mapping l).2 with
    | row ddVal =>
      rw [hE] at h
      obtain ⟨rows', hr, hf⟩ := ih _ _ h
      refine ⟨ddVal :: rows', by simp [hr], List.Forall₂.cons ?_ hf⟩
      exact getLogsEntry_row env mapping l (getLogsEntry env mapping l).1 ddVal
        (by rw [← hE])
    | failed e => rw [hE] at h; simp at h
    | panicked => rw [hE] at h; simp at h
    | exited => rw [hE] at h; simp at h

/-- Claim C6, amended: for every ordered mapping rule list and every batch of
records on which `getLogs` returns no error, `getLogs` returns exactly one row
per record, in input order, and each row equals the five fixed leading cells
(timestamp formatted as RFC3339, service name, status, the message text in
double quotes, with `""` when the record has no message, and the full
attribute bag serialized as JSON text wrapped in single quotes) followed by the
mapping-derived cells concatenated in rule order: one cell per scalar rule,
the default string conversion of the result of `getValue`, and for an
array-expansion rule the cells `getAllValues` extracts from the sequence. -/
theorem getLogs_rows (env : Env) (y : YamlProcessor) (source : List Log)
    (rows : List (List String)) (h : (getLogs env y source).2 = .returned rows none) :
    rows.length = source.length ∧
    List.Forall₂ (fun l r => expectedRow env y.Yaml.Spec.Mapping l = some r) source rows := by
  obtain ⟨rows', hr, hf⟩ := getLogsLoop_rows env y.Yaml.Spec.Mapping source [] rows h
  simp only [List.nil_append] at hr
  subst hr
  exact ⟨hf.length_eq.symm, hf⟩

theorem getLogs_rows_witness :
    (getLogs sampleEnv (sampleProcessor [scalarRule, itemsRule]) [sampleLog, sampleLog]).2 =
      .returned [["1970-01-01T00:00:00Z", "web", "info", "\"hello\"", sampleCell, "7", "x", "y"],
        ["1970-01-01T00:00:00Z", "web", "info", "\"hello\"", sampleCell, "7", "x", "y"]] none ∧
    List.Forall₂ (fun l r => expectedRow sampleEnv [scalarRule, itemsRule] l = some r)
      [sampleLog, sampleLog]
      [["1970-01-01T00:00:00Z", "web", "info", "\"hello\"", sampleCell, "7", "x", "y"],
        ["1970-01-01T00:00:00Z", "web", "info", "\"hello\"", sampleCell, "7", "x", "y"]] :=
  ⟨rfl, (getLogs_rows sampleEnv (sampleProcessor [scalarRule, itemsRule])
    [sampleLog, sampleLog] _ rfl).2⟩

/-- Claim C6 fails on a record with an empty attribute bag and no mapping rule:
the JSON text of the bag is `{}`, and the fifth cell of the row is `'{}'`, the
JSON text between single quotes, so the row is not the five cells of the
claim. -/
theorem getLogs_attributes_cell_counterexample :
    ∃ row : List String,
      (getLogs sampleEnv (sampleProcessor []) [sampleLogEmptyBag]).2 = .returned [row] none ∧
      sampleEnv.jsonMarshal (some []) = some "\x7b\x7d" ∧
      row[4]? = some "'\x7b\x7d'" ∧
      row ≠ ["1970-01-01T00:00:00Z", "web", "info", "\"\"", "\x7b\x7d"] :=
  ⟨["1970-01-01T00:00:00Z", "web", "info", "\"\"", "'\x7b\x7d'"], rfl, rfl, rfl, by decide⟩

/-- With total helpers the rule loop never panics: it completes when no rule
has a non-sequence expansion target and fails when one has. -/
theorem mappingLoop_total (env : Env) (a : Attrs) (ht : env.total) :
    ∀ (mapping : List Mapping) (acc : List String),
      (∃ row, mappingLoop env a mapping acc = .done row ∧
        ∀ fl ∈ mapping, notASequence env a fl = false) ∨
      (∃ e, mappingLoop env a mapping acc = .failed e ∧
        ∃ fl ∈ mapping, notASequence env a fl = true) := by
  obtain ⟨hds, hgv, hga, _⟩ := ht
  intro mapping
  induction mapping with
  | nil => intro acc; left; exact ⟨acc, rfl, by simp⟩
  | cons fl rest ih =>
    intro acc
    rw [mappingLoop]
    by_cases hf : fl.Field = "-"
    · simp only [hf, if_true]
      obtain ⟨outerObj, hd⟩ := Option.isSome_iff_exists.mp (hds a (stringsSplitDot fl.DdField))
      obtain ⟨key, hk⟩ := stringsSplitDot_last fl.DdField
      simp only [hd, hk]
      cases hget : outerObj.get key with
      | none =>
        right
        exact ⟨_, rfl, fl, List.mem_cons_self _ _, by simp [notASequence, hf, hd, hk, hget]⟩
      | some v =>
        cases v with
        | seq obj =>
          obtain ⟨newDdVal, hg⟩ := Option.isSome_iff_exists.mp (hga obj fl.InnerField)
          simp only [hg]
          rcases ih (acc ++ newDdVal) with ⟨row, hr, hall⟩ | ⟨e, he, fl', hm, hbad⟩
          · left
            refine ⟨row, hr, ?_⟩
            intro fl' hm
            rcases List.mem_cons.mp hm with rfl | hm
            · simp [notASequence, hd, hk, hget]
            · exact hall fl' hm
          · right
            exact ⟨e, he, fl', List.mem_cons_of_mem _ hm, hbad⟩
        | null | bool _ | number _ | str _ | map _ =>
          right
          exact ⟨_, rfl, fl, List.mem_cons_self _ _, by simp [notASequence, hf, hd, hk, hget]⟩
    · simp only [hf, if_false]
      obtain ⟨val, hv⟩ := Option.isSome_iff_exists.mp (hgv fl a)
      simp only [hv]
      rcases ih (acc ++ [env.sprint val]) with ⟨row, hr, hall⟩ | ⟨e, he, fl', hm, hbad⟩
      · left
        refine ⟨row, hr, ?_⟩
        intro fl' hm
        rcases List.mem_cons.mp hm with rfl | hm
        · simp [notASequence, hf]
        · exact hall fl' hm
      · right
        exact ⟨e, he, fl', List.mem_cons_of_mem _ hm, hbad⟩

/-- With total helpers, the loop body on a complete record yields a row when no
rule has a non-sequence expansion target and fails when one has. -/
theorem getLogsEntry_total (env : Env) (mapping : List Mapping) (l : Log) (ht : env.total)
    (hc : l.complete = true) :
    ∃ bag, l.messageBag = some bag ∧
      ((∃ row, (getLogsEntry env mapping l).2 = .row row ∧
          ∀ fl ∈ mapping, notASequence env bag fl = false) ∨
        (∃ e, (getLogsEntry env mapping l).2 = .failed e ∧
          ∃ fl ∈ mapping, notASequence env bag fl = true)) := by
  unfold Log.complete at hc
  cases hla : l.Attributes with
  | none => simp [hla] at hc
  | some la =>
    simp only [hla, Bool.and_eq_true] at hc
    obtain ⟨⟨⟨h1, h2⟩, h3⟩, h4⟩ := hc
    obtain ⟨ts, hts⟩ := Option.isSome_iff_exists.mp h1
    obtain ⟨sv, hsv⟩ := Option.isSome_iff_exists.mp h2
    obtain ⟨st, hst⟩ := Option.isSome_iff_exists.mp h3
    obtain ⟨bag, hb⟩ := Option.isSome_iff_exists.mp h4
    obtain ⟨json, hj⟩ := Option.isSome_iff_exists.mp (ht.2.2.2 (some bag))
    refine ⟨bag.set "message" (Value.str ("\"" ++ la.GetMessage ++ "\"")), by
      simp [Log.messageBag, hla, hb], ?_⟩
    rw [getLogsEntry_eq env mapping l la ts sv st bag json hla hts hsv hst hb hj]
    rcases mappingLoop_total env (bag.set "message" (Value.str ("\"" ++ la.GetMessage ++ "\""))) ht
      mapping [env.formatRFC3339 ts, sv, st, "\"" ++ la.GetMessage ++ "\"", "'" ++ json ++ "'"]
      with ⟨row, hr, hall⟩ | ⟨e, he, hbad⟩
    · left; exact ⟨row, by simp [hr, RuleLoop.toEntry], hall⟩
    · right; exact ⟨e, by simp [he, RuleLoop.toEntry], hbad⟩

/-- With total helpers and complete records, the loop over the records returns
rows when no record has a rule with a non-sequence expansion target, and
returns an error and no rows when one has. -/
theorem getLogsLoop_total (env : Env) (mapping : List Mapping) (ht : env.total) :
    ∀ (source : List Log) (acc : List (List String)), (∀ l ∈ source, l.complete = true) →
      (∃ rows, (getLogsLoop env mapping source acc).2 = .returned rows none ∧
        ∀ l ∈ source, ∀ bag, l.messageBag = some bag →
          ∀ fl ∈ mapping, notASequence env bag fl = false) ∨
      (∃ e, (getLogsLoop env mapping source acc).2 = .returned [] (some e) ∧
        ∃ l ∈ source, ∃ bag, l.messageBag = some bag ∧
          ∃ fl ∈ mapping, notASequence env bag fl = true) := by
  intro source
  induction source with
  | nil => intro acc _; left; exact ⟨acc, rfl, by simp⟩
  | cons l rest ih =>
    intro acc hc
    rw [getLogsLoop_cons]
    obtain ⟨bag, hbag, hcase⟩ := getLogsEntry_total env mapping l ht (hc l (List.mem_cons_self _ _))
    rcases hcase with ⟨row, hr, hall⟩ | ⟨e, he, hbad⟩
    · simp only [hr]
      rcases ih (acc ++ [row]) (fun l' h' => hc l' (List.mem_cons_of_mem _ h'))
        with ⟨rows, hrows, hall'⟩ | ⟨e, he, l', hl', hbad⟩
      · left
        refine ⟨rows, hrows, ?_⟩
        intro l' hl' bag' hbag'
        rcases List.mem_cons.mp hl' with rfl | hl'
        · rw [hbag] at hbag'
          cases hbag'
          exact hall
        · exact hall' l' hl' bag' hbag'
      · right
        exact ⟨e, he, l', List.mem_cons_of_mem _ hl', hbad⟩
    · right
      simp only [he]
      exact ⟨e, rfl, l, List.mem_cons_self _ _, bag, hbag, hbad⟩

/-- Claim C7, amended: for every mapping and every batch whose records all
carry their attributes, timestamp, service, status and attribute bag (with the
helpers `deepSearch`, `getValue` and `getAllValues` total and JSON
serialization succeeding), `getLogs` returns an error if and only if there is a
record and an array-expansion rule (`Field == "-"`) for which the value stored
under the final dotted segment of the rule's path, in the mapping `deepSearch`
returns, is absent or is not a sequence; in that case it returns no rows at
all. -/
theorem getLogs_error_iff (env : Env) (y : YamlProcessor) (source : List Log) (ht : env.total)
    (hc : ∀ l ∈ source, l.complete = true) :
    ((∃ rows e, (getLogs env y source).2 = .returned rows (some e)) ↔
      ∃ l ∈ source, ∃ bag, l.messageBag = some bag ∧
        ∃ fl ∈ y.Yaml.Spec.Mapping, notASequence env bag fl = true) ∧
    (∀ rows e, (getLogs env y source).2 = .returned rows (some e) → rows = []) := by
  unfold getLogs
  rcases getLogsLoop_total env y.Yaml.Spec.Mapping ht source [] hc
    with ⟨rows, hrows, hall⟩ | ⟨e, he, hbad⟩
  · refine ⟨⟨?_, ?_⟩, ?_⟩
    · rintro ⟨rows', e, h⟩
      rw [hrows] at h
      simp at h
    · rintro ⟨l, hl, bag, hbag, fl, hfl, hbad⟩
      rw [hall l hl bag hbag fl hfl] at hbad
      exact absurd hbad (by simp)
    · intro rows' e h
      rw [hrows] at h
      simp at h
  · refine ⟨⟨fun _ => hbad, fun _ => ⟨[], e, he⟩⟩, ?_⟩
    intro rows' e' h
    rw [he] at h
    simp only [Outcome.returned.injEq] at h
    exact h.1.symm

theorem sampleEnv_total : sampleEnv.total :=
  ⟨fun _ _ => rfl, fun _ _ => rfl, fun _ _ => rfl, fun a => by
    cases a with
    | none => rfl
    | some b => cases b <;> rfl⟩

theorem getLogs_error_iff_witness :
    sampleEnv.total ∧ (∀ l ∈ [sampleLogEmptyBag, sampleLog], l.complete = true) ∧
    notASequence sampleEnv
      [("message", Value.str "\"hello\""), ("id", Value.number 7),
        ("items", Value.seq [Value.str "x", Value.str "y"])] badRule = true ∧
    ∃ rows e, (getLogs sampleEnv (sampleProcessor [scalarRule, badRule])
      [sampleLogEmptyBag, sampleLog]).2 = .returned rows (some e) :=
  ⟨sampleEnv_total, by decide, rfl,
    (getLogs_error_iff sampleEnv (sampleProcessor [scalarRule, badRule])
      [sampleLogEmptyBag, sampleLog] sampleEnv_total (by decide)).1.mpr
      ⟨sampleLog, by simp, _, rfl, badRule, by simp [sampleProcessor], rfl⟩⟩

/-- Claim C7 fails on a batch whose first record has a nil service and whose
second record has an array-expansion rule aimed at a number: the helpers are
total and the JSON serialization succeeds, a record and a rule with a
non-sequence target exist, and `getLogs` panics on the first record instead of
returning an error. -/
theorem getLogs_panics_before_error_counterexample :
    sampleEnv.total ∧
    (∃ l ∈ [sampleLogNoService, sampleLog], ∃ bag, l.messageBag = some bag ∧
      ∃ fl ∈ (sampleProcessor [badRule]).Yaml.Spec.Mapping, notASequence sampleEnv bag fl = true) ∧
    (getLogs sampleEnv (sampleProcessor [badRule]) [sampleLogNoService, sampleLog]).2 = .panicked ∧
    ¬ ∃ rows e, (getLogs sampleEnv (sampleProcessor [badRule]) [sampleLogNoService, sampleLog]).2 =
      .returned rows (some e) :=
  ⟨sampleEnv_total, ⟨sampleLog, by simp, _, rfl, badRule, by simp [sampleProcessor], rfl⟩, rfl,
    by
      have h : (getLogs sampleEnv (sampleProcessor [badRule]) [sampleLogNoService, sampleLog]).2 =
          .panicked := rfl
      rw [h]
      simp⟩

/-- The rows returned without an error extend the rows collected so far. -/
theorem getLogsLoop_extends (env : Env) (mapping : List Mapping) (source : List Log)
    (acc rows : List (List String))
    (h : (getLogsLoop env mapping source acc).2 = .returned rows none) :
    ∃ rows', rows = acc ++ rows' ∧ rows'.length = source.length := by
  obtain ⟨rows', hr, hf⟩ := getLogsLoop_rows env mapping source acc rows h
  exact ⟨rows', hr, hf.length_eq.symm⟩

/-- The loop over the records touches a leading segment of the batch and
nothing else: each record of the segment has all its fields present, its bag is
left with `"message"` set to the quoted message text, and, when rows are
returned, its row is the one the rule loop builds on that bag from the five fixed
cells, whose JSON cell is made from the bag on entry; every later record is
as it was. -/
theorem getLogsLoop_frame (env : Env) (mapping : List Mapping) :
    ∀ (source : List Log) (acc : List (List String)),
      ∃ k, k ≤ source.length ∧
        (∀ i, k ≤ i → (getLogsLoop env mapping source acc).1[i]? = source[i]?) ∧
        (∀ i, i < k → ∃ la ts sv st bag json,
          source[i]? = some { Attributes := some la } ∧ la.Timestamp = some ts ∧
          la.Service = some sv ∧ la.Status = some st ∧ la.Attributes = some bag ∧
          env.jsonMarshal (some bag) = some json ∧
          (getLogsLoop env mapping source acc).1[i]? = some { Attributes := some { la with
            Attributes := some (bag.set "message" (Value.str ("\"" ++ la.GetMessage ++ "\""))) } } ∧
          ∀ rows, (getLogsLoop env mapping source acc).2 = .returned rows none →
            ∃ row, rows[acc.length + i]? = some row ∧
              mappingLoop env (bag.set "message" (Value.str ("\"" ++ la.GetMessage ++ "\""))) mapping
                [env.formatRFC3339 ts, sv, st, "\"" ++ la.GetMessage ++ "\"", "'" ++ json ++ "'"] =
                .done row) ∧
        (∀ rows, (getLogsLoop env mapping source acc).2 = .returned rows none →
          k = source.length) := by
  intro source
  induction source with
  | nil =>
    intro acc
    exact ⟨0, le_refl _, fun i _ => by simp [getLogsLoop], fun i hi => absurd hi (by omega),
      fun _ _ => rfl⟩
  | cons l rest ih =>
    intro acc
    rw [getLogsLoop_cons]
    rcases getLogsEntry_cases env mapping l with
      ⟨h1, h2⟩ | ⟨la, ts, sv, st, bag, json, hla, hts, hsv, hst, hb, hj⟩
    · refine ⟨0, Nat.zero_le _, ?_, fun i hi => absurd hi (by omega), ?_⟩
      · intro i _
        rcases h2 with h2 | h2 <;> simp only [h2, h1]
      · intro rows hr
        rcases h2 with h2 | h2 <;> simp [h2] at hr
    · have hl : l = { Attributes := some la } := by
        cases l; simp only at hla; rw [hla]
      have hE := getLogsEntry_eq env mapping l la ts sv st bag json hla hts hsv hst hb hj
      rw [hE]
      cases hm : mappingLoop env (bag.set "message" (Value.str ("\"" ++ la.GetMessage ++ "\"")))
          mapping [env.formatRFC3339 ts, sv, st, "\"" ++ la.GetMessage ++ "\"", "'" ++ json ++ "'"] with
      | done row =>
        simp only [RuleLoop.toEntry]
        obtain ⟨k, hk, hrest, hproc, hall⟩ := ih (acc ++ [row])
        refine ⟨k + 1, by simp; omega, ?_, ?_, ?_⟩
        · intro i hi
          obtain ⟨j, rfl⟩ : ∃ j, i = j + 1 := ⟨i - 1, by omega⟩
          simp only [List.getElem?_cons_succ]
          exact hrest j (by omega)
        · intro i hi
          cases i with
          | zero =>
            refine ⟨la, ts, sv, st, bag, json, by simp [hl], hts, hsv, hst, hb, hj, by simp, ?_⟩
            intro rows hr
            obtain ⟨rows', hr', _⟩ := getLogsLoop_extends env mapping rest (acc ++ [row]) rows hr
            refine ⟨row, ?_, hm⟩
            rw [hr', List.append_assoc, Nat.add_zero, List.getElem?_append_right (le_refl _)]
            simp
          | succ j =>
            obtain ⟨la', ts', sv', st', bag', json', h1, h2, h3, h4, h5, h6, h7, h8⟩ :=
              hproc j (by omega)
            refine ⟨la', ts', sv', st', bag', json', by simpa using h1, h2, h3, h4, h5, h6,
              by simpa using h7, ?_⟩
            intro rows hr
            obtain ⟨r, hr1, hr2⟩ := h8 rows hr
            refine ⟨r, ?_, hr2⟩
            rw [← hr1]
            congr 1
            simp
            omega
        · intro rows hr
          simp [hall rows hr]
      | failed e =>
        simp only [RuleLoop.toEntry]
        refine ⟨1, by simp, ?_, ?_, ?_⟩
        · intro i hi
          obtain ⟨j, rfl⟩ : ∃ j, i = j + 1 := ⟨i - 1, by omega⟩
          simp
        · intro i hi
          obtain rfl : i = 0 := by omega
          exact ⟨la, ts, sv, st, bag, json, by simp [hl], hts, hsv, hst, hb, hj, by simp,
            fun rows hr => by simp at hr⟩
        · intro rows hr
          simp at hr
      | panicked =>
        simp only [RuleLoop.toEntry]
        refine ⟨1, by simp, ?_, ?_, ?_⟩
        · intro i hi
          obtain ⟨j, rfl⟩ : ∃ j, i = j + 1 := ⟨i - 1, by omega⟩
          simp
        · intro i hi
          obtain rfl : i = 0 := by omega
          exact ⟨la, ts, sv, st, bag, json, by simp [hl], hts, hsv, hst, hb, hj, by simp,
            fun rows hr => by simp at hr⟩
        · intro rows hr
          simp at hr

theorem messageOverwritten_set (la : LogAttributes) (bag : Attrs) :
    messageOverwritten la bag (bag.set "message" (Value.str ("\"" ++ la.GetMessage ++ "\""))) := by
  refine ⟨Attrs.get_set_self _ _ _, ?_, fun key h => Attrs.get_set_other _ _ _ _ h⟩
  intro hm
  rw [Attrs.get_set_self]
  simp [LogAttributes.GetMessage, hm]

/-- Claim C10: `getLogs` is not a pure reader of its records. The records it
processes are a leading segment of the batch (all of it when rows are returned
without an error); the records after the segment are as they were. For every
record of the segment, the attributes cell of its row is the JSON text of the
attribute bag as it was on entry, and afterwards the `"message"` key of the bag
holds the message text of the record in double quotes (the two-character
string `""` when the record has no message), whatever `"message"` attribute
was there before; all other keys of the bag are unchanged, and the mapping
rules are resolved against the overwritten bag. -/
theorem getLogs_overwrites_message (env : Env) (y : YamlProcessor) (source : List Log) :
    ∃ k, k ≤ source.length ∧
      (∀ i, k ≤ i → (getLogs env y source).1[i]? = source[i]?) ∧
      (∀ i, i < k → ∃ la ts sv st bag json bag',
        source[i]? = some { Attributes := some la } ∧ la.Timestamp = some ts ∧
        la.Service = some sv ∧ la.Status = some st ∧ la.Attributes = some bag ∧
        env.jsonMarshal (some bag) = some json ∧
        (getLogs env y source).1[i]? =
          some { Attributes := some { la with Attributes := some bag' } } ∧
        messageOverwritten la bag bag' ∧
        ∀ rows, (getLogs env y source).2 = .returned rows none →
          ∃ row cells, rows[i]? = some row ∧
            row = [env.formatRFC3339 ts, sv, st, "\"" ++ la.GetMessage ++ "\"",
              "'" ++ json ++ "'"] ++ cells ∧
            mappingCells env bag' y.Yaml.Spec.Mapping = some cells ∧
            mappingLoop env bag' y.Yaml.Spec.Mapping
              [env.formatRFC3339 ts, sv, st, "\"" ++ la.GetMessage ++ "\"", "'" ++ json ++ "'"] =
              .done row) ∧
      (∀ rows, (getLogs env y source).2 = .returned rows none → k = source.length) := by
  obtain ⟨k, hk, hrest, hproc, hall⟩ := getLogsLoop_frame env y.Yaml.Spec.Mapping source []
  refine ⟨k, hk, hrest, ?_, hall⟩
  intro i hi
  obtain ⟨la, ts, sv, st, bag, json, h1, h2, h3, h4, h5, h6, h7, h8⟩ := hproc i hi
  refine ⟨la, ts, sv, st, bag, json, _, h1, h2, h3, h4, h5, h6, h7,
    messageOverwritten_set la bag, ?_⟩
  intro rows hr
  obtain ⟨row, hr1, hr2⟩ := h8 rows hr
  obtain ⟨cells, hc1, hc2⟩ := mappingLoop_done env _ _ _ _ hr2
  exact ⟨row, cells, by simpa using hr1, hc2, hc1, hr2⟩

/-- C10 on a sample record whose bag already holds a `"message"` attribute. -/
theorem getLogs_overwrites_message_witness :
    getLogs sampleEnv (sampleProcessor [messageRule]) [sampleLog] =
      ([{ Attributes := some
            { Attributes := some [("message", Value.str "\"hello\""), ("id", Value.number 7),
                ("items", Value.seq [Value.str "x", Value.str "y"])],
              Message := some "hello", Service := some "web", Status := some "info",
              Timestamp := some 0 } }],
        .returned [["1970-01-01T00:00:00Z", "web", "info", "\"hello\"", sampleCell, "\"hello\""]]
          none) ∧
    ∃ k, k ≤ [sampleLog].length ∧
      (∀ i, k ≤ i →
        (getLogs sampleEnv (sampleProcessor [messageRule]) [sampleLog]).1[i]? = [sampleLog][i]?) ∧
      (∀ i, i < k → ∃ la ts sv st bag json bag',
        [sampleLog][i]? = some { Attributes := some la } ∧ la.Timestamp = some ts ∧
        la.Service = some sv ∧ la.Status = some st ∧ la.Attributes = some bag ∧
        sampleEnv.jsonMarshal (some bag) = some json ∧
        (getLogs sampleEnv (sampleProcessor [messageRule]) [sampleLog]).1[i]? =
          some { Attributes := some { la with Attributes := some bag' } } ∧
        messageOverwritten la bag bag' ∧
        ∀ rows, (getLogs sampleEnv (sampleProcessor [messageRule]) [sampleLog]).2 =
            .returned rows none →
          ∃ row cells, rows[i]? = some row ∧
            row = [sampleEnv.formatRFC3339 ts, sv, st, "\"" ++ la.GetMessage ++ "\"",
              "'" ++ json ++ "'"] ++ cells ∧
            mappingCells sampleEnv bag' (sampleProcessor [messageRule]).Yaml.Spec.Mapping =
              some cells ∧
            mappingLoop sampleEnv bag' (sampleProcessor [messageRule]).Yaml.Spec.Mapping
              [sampleEnv.formatRFC3339 ts, sv, st, "\"" ++ la.GetMessage ++ "\"",
                "'" ++ json ++ "'"] = .done row) ∧
      (∀ rows, (getLogs sampleEnv (sampleProcessor [messageRule]) [sampleLog]).2 =
          .returned rows none → k = [sampleLog].length) :=
  ⟨rfl, getLogs_overwrites_message sampleEnv (sampleProcessor [messageRule]) [sampleLog]⟩

/-! ## Header width -/

/-- A scalar rule contributes exactly one cell. -/
theorem mappingCells_scalar_length (env : Env) (a : Attrs) :
    ∀ (mapping : List Mapping) (cells : List String), (∀ fl ∈ mapping, fl.Field ≠ "-") →
      mappingCells env a mapping = some cells → cells.length = mapping.length := by
  intro mapping
  induction mapping with
  | nil => intro cells _ h; simp [mappingCells] at h; simp [h]
  | cons fl rest ih =>
    intro cells hs h
    have hf : fl.Field ≠ "-" := hs fl (List.mem_cons_self _ _)
    rw [mappingCells] at h
    cases hv : env.getValue fl a with
    | none => simp [ruleCells, hf, hv] at h
    | some val =>
      cases hr : mappingCells env a rest with
      | none => simp [ruleCells, hf, hv, hr] at h
      | some cs =>
        simp only [ruleCells, hf, if_false, hv, hr, Option.some.injEq] at h
        rw [← h]
        simp [ih cs (fun fl' h' => hs fl' (List.mem_cons_of_mem _ h')) hr]

/-- The width of an expected row under a mapping of scalar rules. -/
theorem expectedRow_scalar_length (env : Env) (mapping : List Mapping) (l : Log)
    (row : List String) (hs : ∀ fl ∈ mapping, fl.Field ≠ "-")
    (h : expectedRow env mapping l = some row) : row.length = mapping.length + 5 := by
  unfold expectedRow at h
  split at h
  · simp at h
  · split at h
    · split at h
      · next cells hc =>
        simp only [Option.some.injEq] at h
        rw [← h]
        simp [mappingCells_scalar_length env _ mapping cells hs hc]
      · simp at h
    · simp at h

/-- Under a mapping of scalar rules every row `getLogs` returns has five cells
more than there are rules. -/
theorem getLogs_scalar_row_length (env : Env) (y : YamlProcessor) (source : List Log)
    (rows : List (List String)) (hscalar : ∀ fl ∈ y.Yaml.Spec.Mapping, fl.Field ≠ "-")
    (h : (getLogs env y source).2 = .returned rows none) :
    ∀ row ∈ rows, row.length = y.Yaml.Spec.Mapping.length + 5 := by
  obtain ⟨rows', hr, hf⟩ := getLogsLoop_rows env y.Yaml.Spec.Mapping source [] rows h
  simp only [List.nil_append] at hr
  subst hr
  intro row hrow
  obtain ⟨l, _, hl⟩ : ∃ l, l ∈ source ∧ expectedRow env y.Yaml.Spec.Mapping l = some row := by
    clear h
    induction hf with
    | nil => simp at hrow
    | cons h1 _ ih =>
      rcases List.mem_cons.mp hrow with rfl | hm
      · exact ⟨_, List.mem_cons_self _ _, h1⟩
      · obtain ⟨l, hl1, hl2⟩ := ih hm
        exact ⟨l, List.mem_cons_of_mem _ hl1, hl2⟩
  exact expectedRow_scalar_length env _ l row hscalar hl

/-- Whatever the closure `ddLogs` appends to the trace, its `CsvWriter` calls
carry no header and only rows returned by `getLogs`. -/
theorem ddLogs_appends (env : Env) (y : YamlProcessor) (P : List String → Prop)
    (hP : ∀ source rows, (getLogs env y source).2 = .returned rows none → ∀ row ∈ rows, P row) :
    ∀ (fuel : Nat) (after : Option String) (trace : List Event) (r : Outcome Unit)
      (trace' : List Event),
      ddLogs env y fuel after trace = some (r, trace') →
      ∃ events, trace' = trace ++ events ∧
        ∀ file hs rows, Event.csvWriter file hs rows ∈ events →
          hs = [] ∧ ∀ row ∈ rows, P row := by
  intro fuel
  induction fuel with
  | zero => intro after trace r trace' h; simp [ddLogs] at h
  | succ fuel ih =>
    intro after trace r trace' h
    rw [ddLogs] at h
    have stop : ∀ (evs : List Event),
        (∀ file hs rows, Event.csvWriter file hs rows ∈ evs → hs = [] ∧ ∀ row ∈ rows, P row) →
        ∀ (r0 : Outcome Unit), some (r0, trace ++ evs) = some (r, trace') →
        ∃ events, trace' = trace ++ events ∧
          ∀ file hs rows, Event.csvWriter file hs rows ∈ events →
            hs = [] ∧ ∀ row ∈ rows, P row := by
      intro evs hevs r0 h0
      simp only [Option.some.injEq, Prod.mk.injEq] at h0
      exact ⟨evs, h0.2.symm, hevs⟩
    cases hg : (getLogs env y (env.GetDataDogLogs y.Yaml.Spec.DatadogFilter after 5000).Data).2 with
    | panicked =>
      simp only [hg, List.append_assoc] at h
      exact stop _ (by simp) _ h
    | exited =>
      simp only [hg, List.append_assoc] at h
      exact stop _ (by simp) _ h
    | returned csvValues err =>
      cases err with
      | some e =>
        simp only [hg, List.append_assoc] at h
        exact stop _ (by simp) _ h
      | none =>
        have hrows := hP _ _ hg
        have hev : ∀ file hs rows, Event.csvWriter file hs rows ∈
            [Event.sleep 6, Event.fetch y.Yaml.Spec.DatadogFilter after 5000,
              Event.csvWriter y.CsvFile [] csvValues] → hs = [] ∧ ∀ row ∈ rows, P row := by
          intro file hs rows hm
          simp only [List.mem_cons, List.mem_singleton, Event.csvWriter.injEq, List.not_mem_nil,
            or_false, false_or, reduceCtorEq] at hm
          obtain ⟨_, rfl, rfl⟩ := hm
          exact ⟨rfl, hrows⟩
        simp only [hg, List.append_assoc, List.singleton_append] at h
        split at h
        · exact stop _ hev _ h
        · split at h
          · exact stop _ hev _ h
          · split at h
            · split at h
              · obtain ⟨events, he1, he2⟩ := ih _ _ _ _ h
                refine ⟨[Event.sleep 6, Event.fetch y.Yaml.Spec.DatadogFilter after 5000,
                  Event.csvWriter y.CsvFile [] csvValues] ++ events, by simp [he1], ?_⟩
                intro file hs rows hm
                rcases List.mem_append.mp hm with hm | hm
                · exact hev file hs rows hm
                · exact he2 file hs rows hm
              · exact stop _ hev _ h
            · exact stop _ hev _ h

/-- Claim C9 against the code: for a mapping made only of scalar rules, with
`util.ReadHeader` appending exactly one column name per rule, every row
`getLogs` produces has exactly as many columns as the header `Validate` and
`RunSync` emit, and five more columns than the header `RunParallel` emits.
Every line `Validate` returns, header and rows, has the same width, and every
row `RunSync` appends has the width of the header it wrote first. So the
claim holds for `Validate` and `RunSync` and fails for `RunParallel`. -/
theorem row_width_against_headers (env : Env) (y : YamlProcessor)
    (hscalar : ∀ fl ∈ y.Yaml.Spec.Mapping, fl.Field ≠ "-")
    (hRead : ∀ m hs, (env.ReadHeader m hs).length = hs.length + m.length) :
    (∀ source rows, (getLogs env y source).2 = .returned rows none →
      ∀ row ∈ rows,
        row.length = (fixedHeaders env y).length ∧
        row.length = (RunParallelHeaders env y).length + 5 ∧
        row.length ≠ (RunParallelHeaders env y).length) ∧
    (∀ filename out, Validate env y filename = some (out, none) →
      ∀ line ∈ out, line.length = (fixedHeaders env y).length) ∧
    (∀ fuel r trace, RunSync env y fuel = some (r, trace) →
      ∃ events, trace = Event.csvWriter y.CsvFile (fixedHeaders env y) [] :: events ∧
        ∀ file hs rows, Event.csvWriter file hs rows ∈ events →
          hs = [] ∧ ∀ row ∈ rows, row.length = (fixedHeaders env y).length) := by
  have hfix : (fixedHeaders env y).length = y.Yaml.Spec.Mapping.length + 5 := by
    simp only [fixedHeaders, hRead]
    simp
    omega
  have hpar : (RunParallelHeaders env y).length = y.Yaml.Spec.Mapping.length := by
    simp only [RunParallelHeaders, hRead]
    simp
  refine ⟨?_, ?_, ?_⟩
  · intro source rows h row hrow
    have hlen := getLogs_scalar_row_length env y source rows hscalar h row hrow
    omega
  · intro filename out h line hline
    unfold Validate at h
    cases hg : (getLogs env y (env.GetDataDogLogs y.Yaml.Spec.DatadogFilter none 10).Data).2 with
    | panicked => simp [hg] at h
    | exited => simp [hg] at h
    | returned csvValues err =>
      cases err with
      | some e => simp [hg] at h
      | none =>
        simp only [hg, List.nil_append, Option.some.injEq, Prod.mk.injEq, and_true] at h
        rw [← h] at hline
        rcases List.mem_append.mp hline with hm | hm
        · simp only [List.mem_singleton] at hm
          rw [hm]
        · rw [hfix]
          exact getLogs_scalar_row_length env y _ csvValues hscalar hg line hm
  · intro fuel r trace h
    unfold RunSync at h
    cases hd : ddLogs env y fuel none [Event.csvWriter y.CsvFile (fixedHeaders env y) []] with
    | none => simp [hd] at h
    | some res =>
      obtain ⟨r0, tr0⟩ := res
      obtain ⟨events, he1, he2⟩ := ddLogs_appends env y
        (fun row => row.length = (fixedHeaders env y).length)
        (fun source rows hg row hrow => by
          rw [hfix]; exact getLogs_scalar_row_length env y source rows hscalar hg row hrow)
        fuel none _ r0 tr0 hd
      have ht : trace = tr0 := by
        simp only [hd] at h
        cases r0 <;> simp at h <;> exact h.2.symm
      exact ⟨events, by rw [ht, he1]; rfl, he2⟩

theorem row_width_against_headers_witness :
    (getLogs sampleEnv (sampleProcessor [scalarRule]) [sampleLog]).2 =
      .returned [["1970-01-01T00:00:00Z", "web", "info", "\"hello\"", sampleCell, "7"]] none ∧
    RunParallelHeaders sampleEnv (sampleProcessor [scalarRule]) = ["id"] ∧
    (["1970-01-01T00:00:00Z", "web", "info", "\"hello\"", sampleCell, "7"].length =
        (fixedHeaders sampleEnv (sampleProcessor [scalarRule])).length ∧
      ["1970-01-01T00:00:00Z", "web", "info", "\"hello\"", sampleCell, "7"].length =
        (RunParallelHeaders sampleEnv (sampleProcessor [scalarRule])).length + 5 ∧
      ["1970-01-01T00:00:00Z", "web", "info", "\"hello\"", sampleCell, "7"].length ≠
        (RunParallelHeaders sampleEnv (sampleProcessor [scalarRule])).length) :=
  ⟨rfl, rfl,
    (row_width_against_headers sampleEnv (sampleProcessor [scalarRule])
      (by simp [sampleProcessor, scalarRule])
      (by intro m hs; simp [sampleEnv, ReadHeader])).1 [sampleLog]
      [["1970-01-01T00:00:00Z", "web", "info", "\"hello\"", sampleCell, "7"]]
      rfl _ (List.mem_cons_self _ _)⟩

end Processor
